import Mathlib

/-!
Shallow embedding of the bitcoin-flow layout / port-aggregation core.

Conventions used throughout this embedding of the TypeScript source:

* A JavaScript `Record<string, T>` is modelled as an association list
  `List (String × T)`; lookup returns the first matching entry (JS records have
  unique keys, so the two coincide), insertion overwrites the first matching
  entry and otherwise appends (JS insertion order), and deletion removes the
  first matching entry.  `Object.entries` / `Object.keys` iterate the list in
  order.
* A JS `Set<string>` is modelled as a `List String` used only through
  membership.
* Optional / falsy string fields (`vin.txid`, `scriptpubkey_address`, ...) are
  modelled as `Option String`, with the empty string folded into `none` so that
  JS truthiness tests become `Option.isSome`.
* JS numbers holding satoshi amounts or counters are modelled as `Int`;
  coordinates are modelled as `ℚ`; the sub-index values computed by
  `computeSubIndexes` live in `WithBot ℤ` because `Math.max()` of an empty
  spread is `-Infinity` (and `-Infinity + 1 = -Infinity`).
* Array elements are JS object references, so `Array.prototype.indexOf` and
  `filter` distinguish structurally equal elements at different positions; we
  model this by pairing every input/output with its original index
  (`List.enum`) before filtering, and reading the paired index wherever the
  source calls `allVins.indexOf(v)` / `vouts.indexOf(v)`.
-/

/-- First-match lookup in an association list, modelling `record[key]`. -/
def lookupRec {α : Type} (m : List (String × α)) (k : String) : Option α :=
  (m.find? (fun e => e.1 = k)).map (fun e => e.2)

/-- `record[key] = v`: overwrite the first matching entry, else append. -/
def insertRec {α : Type} : List (String × α) → String → α → List (String × α)
  | [], k, v => [(k, v)]
  | e :: rest, k, v => if e.1 = k then (k, v) :: rest else e :: insertRec rest k v

/-- `delete record[key]`: remove the first matching entry. -/
def eraseRec {α : Type} : List (String × α) → String → List (String × α)
  | [], _ => []
  | e :: rest, k => if e.1 = k then rest else e :: eraseRec rest k

/-- Keys of a record in iteration order (`Object.keys`). -/
def keysRec {α : Type} (m : List (String × α)) : List String :=
  m.map Prod.fst

/-! ## Data model (`src/types/index.ts`) -/

/-- The `prevout` object of a transaction input. -/
structure Prevout where
  scriptpubkey_address : Option String
  value : Int
  deriving DecidableEq, Repr

/-- A transaction input (`MempoolVin`).  `txid` and `prevout` are treated as
optional because the source guards every access with JS truthiness checks. -/
structure MempoolVin where
  txid : Option String
  is_coinbase : Bool
  prevout : Option Prevout
  deriving DecidableEq, Repr

/-- A transaction output (`MempoolVout`). -/
structure MempoolVout where
  scriptpubkey_address : Option String
  scriptpubkey_type : Option String
  value : Int
  deriving DecidableEq, Repr

/-- An outspend record (`MempoolOutspend`). -/
structure MempoolOutspend where
  spent : Bool
  txid : Option String
  vin : Option Nat
  deriving DecidableEq, Repr

/-- Confirmation status of a transaction (`status` field). -/
structure TxStatus where
  confirmed : Bool
  block_height : Option Nat
  deriving DecidableEq, Repr

/-- The transaction data fetched from the explorer (`MempoolTx`), restricted to
the fields the layout core reads. -/
structure MempoolTx where
  vin : List MempoolVin
  vout : List MempoolVout
  status : TxStatus
  deriving DecidableEq, Repr

/-- A stored transaction node (`StoredTransaction`). -/
structure StoredTransaction where
  coordinates : ℚ × ℚ
  data : MempoolTx
  outspends : List MempoolOutspend
  deriving DecidableEq, Repr

/-- Per-address annotation (`StoredAddress`), restricted to the fields the
label logic reads. -/
structure StoredAddress where
  name : Option String
  groupId : Option String
  deriving DecidableEq, Repr

/-- An address group (`AddressGroup`). -/
structure AddressGroup where
  id : String
  name : String
  addresses : List String
  deriving DecidableEq, Repr

/-- An aggregation handle (`HandleDescriptor`).  The optional index lists of
the source are modelled as plain lists (empty when unused); the optional
boolean flags default to `false`. -/
structure HandleDescriptor where
  id : String
  label : String
  amount : Int
  addresses : List String
  txids : List String
  vinIndices : List Nat
  voutIndices : List Nat
  isOpReturn : Bool
  isCoinbase : Bool
  deriving DecidableEq, Repr

/-- The node set, i.e. the `transactions` record of the global state. -/
abbrev TxMap := List (String × StoredTransaction)

/-! ## Address display helpers (`formatting.ts`, `addressDisplay.ts`) -/

/-- JS truthiness of an optional string (`undefined` and `''` are falsy). -/
def truthyStr : Option String → Bool
  | none => false
  | some s => s ≠ ""

/-- `truncateAddress` from `formatting.ts`: addresses shorter than 12
characters (including the empty string) are returned unchanged. -/
def truncateAddress (address : String) : String :=
  if address.length < 12 then address
  else address.take 6 ++ "..." ++ String.mk (address.data.drop (address.length - 6))

/-- `getEffectiveName` from `addressDisplay.ts`: a stored custom name wins;
otherwise a non-empty group id resolves through the group map to
`"<group-name> #<index+1>"` when the address is a member of the group. -/
def getEffectiveName (addr : String) (stored : Option StoredAddress)
    (groupMap : List (String × AddressGroup)) : Option String :=
  if truthyStr (stored.bind (fun s => s.name)) then stored.bind (fun s => s.name)
  else
    match stored.bind (fun s => s.groupId) with
    | none => none
    | some gid =>
      if gid = "" then none
      else
        match lookupRec groupMap gid with
        | none => none
        | some g =>
          match g.addresses.indexOf? addr with
          | none => none
          | some idx => some (g.name ++ " #" ++ toString (idx + 1))

/-- `getDisplayLabel` from the handle-grouping module. -/
def getDisplayLabel (address : Option String)
    (addresses : List (String × StoredAddress))
    (groupMap : List (String × AddressGroup)) : String :=
  match address with
  | none => "Non-Standard"
  | some a =>
    match getEffectiveName a (lookupRec addresses a) groupMap with
    | some name => name
    | none => truncateAddress a

/-- `hasEffectiveName` from the handle-grouping module (`!!getEffectiveName`). -/
def hasEffectiveName (address : Option String)
    (addresses : List (String × StoredAddress))
    (groupMap : List (String × AddressGroup)) : Bool :=
  match address with
  | none => false
  | some a => truthyStr (getEffectiveName a (lookupRec addresses a) groupMap)

/-! ## Port aggregation (`handleGrouping.ts`, first file of `part_003`) -/

/-- `v.prevout?.value || 0` (a stored value of `0` is falsy and yields `0`,
which coincides with the default). -/
def vinValue (v : MempoolVin) : Int :=
  (v.prevout.map Prevout.value).getD 0

/-- `v.prevout?.scriptpubkey_address` as an option. -/
def vinAddr (v : MempoolVin) : Option String :=
  v.prevout.bind Prevout.scriptpubkey_address

/-- `v.prevout?.scriptpubkey_address ? [a] : []`. -/
def vinAddrList (v : MempoolVin) : List String :=
  (vinAddr v).toList

/-- `v.txid ? [v.txid] : []`. -/
def vinTxidList (v : MempoolVin) : List String :=
  v.txid.toList

/-- `s || default` on strings (an empty effective name falls back). -/
def jsOrStr (o : Option String) (d : String) : String :=
  if truthyStr o then o.getD d else d

/-- `namedAddresses.length > 0 && namedAddresses.every(a => a === namedAddresses[0])`. -/
def allSameAddr : List String → Bool
  | [] => false
  | a :: rest => rest.all (fun b => b = a)

/-- Whether an indexed input carries an individually labeled address. -/
def vinHasName (addresses : List (String × StoredAddress))
    (groupMap : List (String × AddressGroup)) (iv : Nat × MempoolVin) : Bool :=
  hasEffectiveName (vinAddr iv.2) addresses groupMap

/-- `buildCollapsedInputHandles` from the source: collapse the given indexed
subset of inputs into at most `placesLeft` handles (the comment of the source
function; see the capacity analysis below).  Each pair carries the index of the
input in the full `vin` list, modelling `allVins.indexOf(v)`. -/
def buildCollapsedInputHandles (ivins : List (Nat × MempoolVin))
    (addresses : List (String × StoredAddress))
    (groupMap : List (String × AddressGroup))
    (placesLeft : Nat) (pre : String) : List HandleDescriptor :=
  let named := ivins.filter (vinHasName addresses groupMap)
  let unnamed := ivins.filter (fun iv => ¬ vinHasName addresses groupMap iv)
  let namedCount := named.length
  if namedCount = 0 then
    [{ id := pre ++ "-all",
       label := toString ivins.length ++ " inputs",
       amount := (ivins.map (fun iv => vinValue iv.2)).sum,
       addresses := ivins.flatMap (fun iv => vinAddrList iv.2),
       txids := ivins.flatMap (fun iv => vinTxidList iv.2),
       vinIndices := ivins.map Prod.fst,
       voutIndices := [], isOpReturn := false, isCoinbase := false }]
  else if namedCount < placesLeft then
    (named.enum.map (fun p =>
      { id := pre ++ "-named-" ++ toString p.1,
        label := getDisplayLabel (vinAddr p.2.2) addresses groupMap,
        amount := vinValue p.2.2,
        addresses := vinAddrList p.2.2,
        txids := vinTxidList p.2.2,
        vinIndices := [p.2.1],
        voutIndices := [], isOpReturn := false, isCoinbase := false })) ++
    (if unnamed.length > 0 then
      [{ id := pre ++ "-other",
         label := toString unnamed.length ++ " other inputs",
         amount := (unnamed.map (fun iv => vinValue iv.2)).sum,
         addresses := unnamed.flatMap (fun iv => vinAddrList iv.2),
         txids := unnamed.flatMap (fun iv => vinTxidList iv.2),
         vinIndices := unnamed.map Prod.fst,
         voutIndices := [], isOpReturn := false, isCoinbase := false }]
     else [])
  else
    let namedAddresses := named.filterMap (fun iv => vinAddr iv.2)
    let namedLabel :=
      if allSameAddr namedAddresses then
        match namedAddresses with
        | [] => toString namedCount ++ " labeled inputs"
        | a0 :: _ =>
          toString namedCount ++ " inputs: " ++
            jsOrStr (getEffectiveName a0 (lookupRec addresses a0) groupMap) (truncateAddress a0)
      else toString namedCount ++ " labeled inputs"
    [{ id := pre ++ "-named",
       label := namedLabel,
       amount := (named.map (fun iv => vinValue iv.2)).sum,
       addresses := namedAddresses,
       txids := named.flatMap (fun iv => vinTxidList iv.2),
       vinIndices := named.map Prod.fst,
       voutIndices := [], isOpReturn := false, isCoinbase := false }] ++
    (if unnamed.length > 0 then
      (if unnamed.length < placesLeft - 1 then
        unnamed.enum.map (fun p =>
          { id := pre ++ "-unnamed-" ++ toString p.1,
            label := getDisplayLabel (vinAddr p.2.2) addresses groupMap,
            amount := vinValue p.2.2,
            addresses := vinAddrList p.2.2,
            txids := vinTxidList p.2.2,
            vinIndices := [p.2.1],
            voutIndices := [], isOpReturn := false, isCoinbase := false })
      else
        [{ id := pre ++ "-other",
           label := toString unnamed.length ++ " other inputs",
           amount := (unnamed.map (fun iv => vinValue iv.2)).sum,
           addresses := unnamed.flatMap (fun iv => vinAddrList iv.2),
           txids := unnamed.flatMap (fun iv => vinTxidList iv.2),
           vinIndices := unnamed.map Prod.fst,
           voutIndices := [], isOpReturn := false, isCoinbase := false }])
     else [])

/-- `outspends[i]?.txid ? [outspends[i].txid!] : []`. -/
def outspendTxidList (outspends : List MempoolOutspend) (i : Nat) : List String :=
  ((outspends.get? i).bind MempoolOutspend.txid).toList

/-- Whether an output is a null-data output (`scriptpubkey_type === 'op_return'`). -/
def isOpReturnVout (v : MempoolVout) : Bool :=
  v.scriptpubkey_type = some "op_return"

/-- The `makeHandle` closure shared by `buildCollapsedOutputHandles` and
`computeOutputHandles`: an individual handle for the output at index `i`. -/
def makeOutHandle (outspends : List MempoolOutspend)
    (addresses : List (String × StoredAddress))
    (groupMap : List (String × AddressGroup))
    (v : MempoolVout) (i : Nat) (hid : String) : HandleDescriptor :=
  { id := hid,
    label := if isOpReturnVout v then "OP_RETURN"
             else getDisplayLabel v.scriptpubkey_address addresses groupMap,
    amount := v.value,
    addresses := v.scriptpubkey_address.toList,
    txids := outspendTxidList outspends i,
    vinIndices := [],
    voutIndices := [i],
    isOpReturn := isOpReturnVout v,
    isCoinbase := false }

/-- Whether an indexed output counts as individually labeled for grouping
(null-data outputs are excluded from both pools by the source filters). -/
def voutHasName (addresses : List (String × StoredAddress))
    (groupMap : List (String × AddressGroup)) (iv : Nat × MempoolVout) : Bool :=
  ¬ isOpReturnVout iv.2 && hasEffectiveName iv.2.scriptpubkey_address addresses groupMap

/-- Pool membership of an indexed output on the unlabeled side. -/
def voutUnnamed (addresses : List (String × StoredAddress))
    (groupMap : List (String × AddressGroup)) (iv : Nat × MempoolVout) : Bool :=
  ¬ isOpReturnVout iv.2 && ¬ hasEffectiveName iv.2.scriptpubkey_address addresses groupMap

/-- `buildCollapsedOutputHandles` from the source: collapse the given indexed
subset of outputs into at most `placesLeft` handles.  Each pair carries the
index of the output in the full `vout` list, modelling `allVouts.indexOf(v)`. -/
def buildCollapsedOutputHandles (ivouts : List (Nat × MempoolVout))
    (outspends : List MempoolOutspend)
    (addresses : List (String × StoredAddress))
    (groupMap : List (String × AddressGroup))
    (placesLeft : Nat) (pre : String) : List HandleDescriptor :=
  let named := ivouts.filter (voutHasName addresses groupMap)
  let unnamed := ivouts.filter (voutUnnamed addresses groupMap)
  let namedCount := named.length
  if namedCount = 0 then
    [{ id := pre ++ "-all",
       label := toString ivouts.length ++ " outputs",
       amount := (ivouts.map (fun iv => iv.2.value)).sum,
       addresses := ivouts.flatMap (fun iv => iv.2.scriptpubkey_address.toList),
       txids := ivouts.flatMap (fun iv => outspendTxidList outspends iv.1),
       vinIndices := [],
       voutIndices := ivouts.map Prod.fst,
       isOpReturn := false, isCoinbase := false }]
  else if namedCount < placesLeft then
    (named.enum.map (fun p =>
      makeOutHandle outspends addresses groupMap p.2.2 p.2.1
        (pre ++ "-named-" ++ toString p.1))) ++
    (if unnamed.length > 0 then
      [{ id := pre ++ "-other",
         label := toString unnamed.length ++ " other outputs",
         amount := (unnamed.map (fun iv => iv.2.value)).sum,
         addresses := unnamed.flatMap (fun iv => iv.2.scriptpubkey_address.toList),
         txids := unnamed.flatMap (fun iv => outspendTxidList outspends iv.1),
         vinIndices := [],
         voutIndices := unnamed.map Prod.fst,
         isOpReturn := false, isCoinbase := false }]
     else [])
  else
    let namedAddresses := named.filterMap (fun iv => iv.2.scriptpubkey_address)
    let namedLabel :=
      if allSameAddr namedAddresses then
        match namedAddresses with
        | [] => toString namedCount ++ " labeled outputs"
        | a0 :: _ =>
          toString namedCount ++ " outputs: " ++
            jsOrStr (getEffectiveName a0 (lookupRec addresses a0) groupMap) (truncateAddress a0)
      else toString namedCount ++ " labeled outputs"
    [{ id := pre ++ "-named",
       label := namedLabel,
       amount := (named.map (fun iv => iv.2.value)).sum,
       addresses := namedAddresses,
       txids := named.flatMap (fun iv => outspendTxidList outspends iv.1),
       vinIndices := [],
       voutIndices := named.map Prod.fst,
       isOpReturn := false, isCoinbase := false }] ++
    (if unnamed.length > 0 then
      (if unnamed.length < placesLeft - 1 then
        unnamed.enum.map (fun p =>
          makeOutHandle outspends addresses groupMap p.2.2 p.2.1
            (pre ++ "-unnamed-" ++ toString p.1))
      else
        [{ id := pre ++ "-other",
           label := toString unnamed.length ++ " other outputs",
           amount := (unnamed.map (fun iv => iv.2.value)).sum,
           addresses := unnamed.flatMap (fun iv => iv.2.scriptpubkey_address.toList),
           txids := unnamed.flatMap (fun iv => outspendTxidList outspends iv.1),
           vinIndices := [],
           voutIndices := unnamed.map Prod.fst,
           isOpReturn := false, isCoinbase := false }])
     else [])

/-- `vin.txid && loadedTxids.has(vin.txid)`. -/
def vinConnected (loadedTxids : List String) (v : MempoolVin) : Bool :=
  match v.txid with
  | some t => loadedTxids.contains t
  | none => false

/-- `computeInputHandles` from the source. -/
def computeInputHandles (vins : List MempoolVin)
    (addresses : List (String × StoredAddress))
    (groupMap : List (String × AddressGroup))
    (loadedTxids : List String) : List HandleDescriptor :=
  let count := vins.length
  if count = 1 ∧ (vins.headD ⟨none, false, none⟩).is_coinbase then
    [{ id := "in-0", label := "Coinbase", amount := 0, addresses := [], txids := [],
       vinIndices := [0], voutIndices := [], isOpReturn := false, isCoinbase := true }]
  else if count ≤ 4 then
    vins.enum.map (fun p =>
      { id := "in-" ++ toString p.1,
        label := getDisplayLabel (vinAddr p.2) addresses groupMap,
        amount := vinValue p.2,
        addresses := vinAddrList p.2,
        txids := vinTxidList p.2,
        vinIndices := [p.1],
        voutIndices := [], isOpReturn := false, isCoinbase := false })
  else
    let ivins := vins.enum
    let connectedVins := ivins.filter (fun iv => vinConnected loadedTxids iv.2)
    let unconnectedVins := ivins.filter (fun iv => ¬ vinConnected loadedTxids iv.2)
    let connectedCount := connectedVins.length
    if 4 ≤ connectedCount then
      buildCollapsedInputHandles ivins addresses groupMap 4 "in"
    else
      let placesLeft := 4 - connectedCount
      let connectedHandles : List HandleDescriptor := connectedVins.map (fun iv =>
        { id := "in-" ++ toString iv.1,
          label := getDisplayLabel (vinAddr iv.2) addresses groupMap,
          amount := vinValue iv.2,
          addresses := vinAddrList iv.2,
          txids := vinTxidList iv.2,
          vinIndices := [iv.1],
          voutIndices := [], isOpReturn := false, isCoinbase := false })
      connectedHandles ++
        buildCollapsedInputHandles unconnectedVins addresses groupMap placesLeft "in"

/-- `outspends[i]?.txid && loadedTxids.has(spendTxid)`. -/
def voutConnected (outspends : List MempoolOutspend) (loadedTxids : List String)
    (i : Nat) : Bool :=
  match (outspends.get? i).bind MempoolOutspend.txid with
  | some t => loadedTxids.contains t
  | none => false

/-- `computeOutputHandles` from the source. -/
def computeOutputHandles (vouts : List MempoolVout)
    (outspends : List MempoolOutspend)
    (addresses : List (String × StoredAddress))
    (groupMap : List (String × AddressGroup))
    (loadedTxids : List String) : List HandleDescriptor :=
  let count := vouts.length
  if count ≤ 4 then
    vouts.enum.map (fun p =>
      makeOutHandle outspends addresses groupMap p.2 p.1 ("out-" ++ toString p.1))
  else
    let ivouts := vouts.enum
    let connectedVouts := ivouts.filter (fun iv => voutConnected outspends loadedTxids iv.1)
    let unconnectedVouts := ivouts.filter (fun iv => ¬ voutConnected outspends loadedTxids iv.1)
    let connectedCount := connectedVouts.length
    if 4 ≤ connectedCount then
      buildCollapsedOutputHandles ivouts outspends addresses groupMap 4 "out"
    else
      let placesLeft := 4 - connectedCount
      let connectedHandles := connectedVouts.map (fun iv =>
        makeOutHandle outspends addresses groupMap iv.2 iv.1 ("out-" ++ toString iv.1))
      connectedHandles ++
        buildCollapsedOutputHandles unconnectedVouts outspends addresses groupMap placesLeft "out"

/-! ## Confirmation order and leveler (`sorting.ts`, `part_002`) -/

/-- `tx.data.vin.filter(vin => vin.txid && transactions[vin.txid]).length`. -/
def inSetVinCount (m : TxMap) (tx : StoredTransaction) : Nat :=
  (tx.data.vin.filter (fun v =>
    match v.txid with
    | some t => (lookupRec m t).isSome
    | none => false)).length

/-- State of the `computeSubIndexes` work loop. -/
structure SIState where
  subIndexes : List (String × WithBot Int)
  workQueue : List String
  inputsLeft : List (String × Int)
  deriving Repr

/-- The initialisation loop of `computeSubIndexes`: iterate `Object.entries`
in order, seeding the work queue with transactions having no in-set inputs and
recording the pending-input count for the others. -/
def initSI (m : TxMap) : SIState :=
  m.foldl (fun st e =>
    if inSetVinCount m e.2 = 0 then
      { st with workQueue := st.workQueue ++ [e.1] }
    else
      { st with inputsLeft := st.inputsLeft ++ [(e.1, (inSetVinCount m e.2 : Int))] })
    ⟨[], [], []⟩

/-- `subIndexes[vin.txid] || 0`: an absent entry gives `0`; a stored `0` is
falsy and also gives `0` (`-Infinity`, i.e. `⊥`, is truthy). -/
def jsOrZero : Option (WithBot Int) → WithBot Int
  | none => 0
  | some v => if v = 0 then 0 else v

/-- `Math.max(...l)`: the maximum of a list, `-Infinity` (`⊥`) when empty. -/
def jsMax (l : List (WithBot Int)) : WithBot Int :=
  l.foldl max ⊥

/-- `Math.max(...tx.data.vin.map(vin => subIndexes[vin.txid] || 0)) + 1`
(in `WithBot ℤ`, so an empty `vin` list yields `-Infinity + 1 = -Infinity`). -/
def newSubIndex (subs : List (String × WithBot Int)) (tx : StoredTransaction) :
    WithBot Int :=
  jsMax (tx.data.vin.map (fun v => jsOrZero (v.txid.bind (fun t => lookupRec subs t)))) + 1

/-- One iteration of the inner `for (const outspend of tx.outspends)` loop,
acting on the pair (work queue, inputsLeft). -/
def applyOutspend (m : TxMap) (st : List String × List (String × Int))
    (o : MempoolOutspend) : List String × List (String × Int) :=
  if ¬ o.spent then st
  else
    match o.txid with
    | none => st
    | some otx =>
      if (lookupRec m otx).isNone then st
      else
        let newLeft : Int := ((lookupRec st.2 otx).getD 0) - 1
        if newLeft < 0 then st
        else if newLeft = 0 then (st.1 ++ [otx], eraseRec st.2 otx)
        else (st.1, insertRec st.2 otx newLeft)

/-- The `while (workQueue.length > 0)` loop of `computeSubIndexes`, with an
explicit fuel parameter; `none` marks fuel exhaustion (shown impossible for
the canonical fuel below) or a work-queue entry absent from the node set (on
which the source would crash; shown unreachable as well). -/
def siLoop (m : TxMap) : Nat → SIState → Option (List (String × WithBot Int))
  | fuel, st =>
    match st.workQueue with
    | [] => some st.subIndexes
    | txid :: rest =>
      match fuel with
      | 0 => none
      | fuel' + 1 =>
        match lookupRec m txid with
        | none => none
        | some tx =>
          let subs := insertRec st.subIndexes txid (newSubIndex st.subIndexes tx)
          let qi := tx.outspends.foldl (applyOutspend m) (rest, st.inputsLeft)
          siLoop m fuel' ⟨subs, qi.1, qi.2⟩

/-- `computeSubIndexes` from the source, run with fuel equal to the initial
loop measure (total queued plus pending transactions). -/
def computeSubIndexes (m : TxMap) : Option (List (String × WithBot Int)) :=
  let st := initSI m
  siLoop m (st.workQueue.length + st.inputsLeft.length) st

/-- `transactions[t].data.status.block_height ?? Infinity` as a `WithTop ℕ`. -/
def heightKey (m : TxMap) (t : String) : WithTop Nat :=
  match (lookupRec m t).bind (fun tx => tx.data.status.block_height) with
  | some h => (h : WithTop Nat)
  | none => ⊤

/-- `a.localeCompare(b) < 0`, modelled as the lexicographic order on the
character sequences (what `localeCompare` computes for the hex identifiers at
hand). -/
def strLtB (a b : String) : Bool :=
  decide (a.data < b.data)

/-- The comparator of `sortTxids` as a boolean "comparator result ≤ 0"
relation: primary key confirmation height (unconfirmed last), secondary key
sub-index (`?? 0` for transactions never assigned one), final tie-break the
identifier (`localeCompare`, which on hex identifiers is the ordinary
lexicographic string order). -/
def txSortLe (m : TxMap) (subs : List (String × WithBot Int)) (a b : String) : Bool :=
  let ha := heightKey m a
  let hb := heightKey m b
  if ha ≠ hb then decide (ha < hb)
  else
    let ia := (lookupRec subs a).getD 0
    let ib := (lookupRec subs b).getD 0
    if ia ≠ ib then decide (ia < ib)
    else !strLtB b a

/-- `sortTxids` from the source: `Object.keys(transactions).sort(cmp)`.
JS `Array.prototype.sort` is a stable sort with respect to the comparator; it
is modelled by the (stable) insertion sort on the key list. -/
def sortTxids (m : TxMap) : List String :=
  let subs := (computeSubIndexes m).getD []
  (m.map Prod.fst).insertionSort (fun a b => txSortLe m subs a b = true)

/-! ## Layout orchestration (`layout.ts` in `edgeStyling.ts` concatenation) -/

/-- `Math.min(...l)` over rationals (the empty case, `Infinity` in JS, is
unreachable at every call site and mapped to `0`). -/
def jsMinQ : List ℚ → ℚ
  | [] => 0
  | x :: xs => xs.foldl min x

/-- `Math.max(...l)` over rationals (empty case unreachable, mapped to `0`). -/
def jsMaxQ : List ℚ → ℚ
  | [] => 0
  | x :: xs => xs.foldl max x

def NODE_GAP : ℚ := 400
def NODE_WIDTH : ℚ := 260
def SMALL_GAP : ℚ := 30
def Y_SPREAD : ℚ := 5 / 2

/-- The horizontal step of `computeLayout`: evenly spaced X positions centred
around `0`, in total-order sequence (`xPositions[sorted[i]] = startX + i*GAP`). -/
def xPositions (sorted : List String) : List (String × ℚ) :=
  let totalWidth : ℚ := ((sorted.length : ℚ) - 1) * NODE_GAP
  let startX := -totalWidth / 2
  sorted.enum.map (fun p => (p.2, startX + (p.1 : ℚ) * NODE_GAP))

/-- `computeLayout` from the source.  The call into the external layered-graph
solver (elkjs) is out of the repository; it is modelled from the spec: the
solver either throws (`none`) — the `catch` branch — or returns a vertical
coordinate for every submitted node (`some yOf`).  On success the source keeps
the pre-computed X, recentres the returned Y values around `0` and applies the
fixed spread factor; on failure it keeps each node's stored Y and only applies
the new X. -/
def computeLayout (solverY : Option (String → ℚ)) (m : TxMap) :
    List (String × (ℚ × ℚ)) :=
  let sorted := sortTxids m
  let n := sorted.length
  if n = 0 then []
  else
    let xs := xPositions sorted
    match solverY with
    | some yOf =>
      let positions := sorted.map (fun t => (t, ((lookupRec xs t).getD 0, yOf t)))
      let yValues := positions.map (fun p => p.2.2)
      match yValues with
      | [] => positions
      | _ :: _ =>
        let centerY := (jsMinQ yValues + jsMaxQ yValues) / 2
        positions.map (fun p => (p.1, (p.2.1, (p.2.2 - centerY) * Y_SPREAD)))
    | none =>
      sorted.map (fun t => (t, ((lookupRec xs t).getD 0,
        ((lookupRec m t).map (fun tx => tx.coordinates.2)).getD 0)))

/-! ## Incremental placement (`computeInitialX` in `useGlobalState.ts`) -/

/-- The stored X coordinate of a node (`transactions[id].coordinates.x`). -/
def coordX (m : TxMap) (t : String) : ℚ :=
  ((lookupRec m t).map (fun tx => tx.coordinates.1)).getD 0

/-- The in-set transactions spending this node's outputs
(`stored.outspends.map(o => o.txid).filter(id => !!id && !!transactions[id])`). -/
def outputTxidsOf (m : TxMap) (txid : String) : List String :=
  ((((lookupRec m txid).map StoredTransaction.outspends).getD []).filterMap
    MempoolOutspend.txid).filter (fun i => (lookupRec m i).isSome)

/-- The in-set transactions whose outputs this node spends
(`stored.data.vin.map(vin => vin.txid).filter(id => !!id && !!transactions[id])`). -/
def inputTxidsOf (m : TxMap) (txid : String) : List String :=
  ((((lookupRec m txid).map (fun tx => tx.data.vin)).getD []).filterMap
    MempoolVin.txid).filter (fun i => (lookupRec m i).isSome)

/-- `computeInitialX` from the source: base X from sorted-order neighbours,
then the output-consumer clamp (`x = min x (minX - width - gap)`), then the
input-source clamp (`x = max x (maxX + width + gap)`), in that order.  (When
`txid` is absent from the node set the source dereferences `undefined`; the
embedding is total but the claims only concern members.) -/
def computeInitialX (txid : String) (m : TxMap) : ℚ :=
  let sorted := sortTxids m
  let idx := sorted.indexOf txid
  if sorted.length = 1 then 0
  else
    let x0 : ℚ :=
      if idx = 0 then coordX m (sorted.getD 1 "") - NODE_GAP
      else if idx = sorted.length - 1 then
        coordX m (sorted.getD (sorted.length - 2) "") + NODE_GAP
      else (coordX m (sorted.getD (idx - 1) "") + coordX m (sorted.getD (idx + 1) "")) / 2
    let outputTxids := outputTxidsOf m txid
    let x1 := if outputTxids.length > 0 then
        min x0 (jsMinQ (outputTxids.map (coordX m)) - NODE_WIDTH - SMALL_GAP)
      else x0
    let inputTxids := inputTxidsOf m txid
    if inputTxids.length > 0 then
      max x1 (jsMaxQ (inputTxids.map (coordX m)) + NODE_WIDTH + SMALL_GAP)
    else x1

/-! ## Amount scaler (`computeEdgeWidth` in `edgeStyling.ts`) -/

/-- `computeEdgeWidth` from the source.  Amounts are rationals; `Math.log` is
transcendental, so this single definition is noncomputable — every branch
condition the claims touch is rational and decidable. -/
noncomputable def computeEdgeWidth (amount : ℚ) (allAmounts : List ℚ) : ℝ :=
  if allAmounts.length = 0 ∨ amount ≤ 0 then 2
  else
    let positiveAmounts := allAmounts.filter (fun a => 0 < a)
    if positiveAmounts.length = 0 then 2
    else
      let logMin := Real.log ((jsMinQ positiveAmounts : ℚ) : ℝ)
      let logMax := Real.log ((jsMaxQ positiveAmounts : ℚ) : ℝ)
      if logMin = logMax then 4
      else
        let logAmount := Real.log ((max amount 1 : ℚ) : ℝ)
        2 + 6 * (logAmount - logMin) / (logMax - logMin)

/-! ## Spend-relation vocabulary used to state the ordering claims -/

/-- Transaction `t` has an input referencing `p`, with both present in the
node set (the in-set spend relation: an edge from `p` to `t`). -/
def spendsInto (m : TxMap) (p t : String) : Bool :=
  match lookupRec m t with
  | none => false
  | some tx => (lookupRec m p).isSome && tx.data.vin.any (fun v => v.txid = some p)

/-- How many inputs of `t` reference `p`. -/
def vinRefCount (m : TxMap) (t p : String) : Nat :=
  match lookupRec m t with
  | none => 0
  | some tx => (tx.data.vin.filter (fun v => v.txid = some p)).length

/-- How many outspend records of `a` point (spent) at `b`. -/
def outspendCount (m : TxMap) (a b : String) : Nat :=
  match lookupRec m a with
  | none => 0
  | some tx => (tx.outspends.filter (fun o => o.spent && o.txid = some b)).length

/-- The outspend records agree with the input references: for in-set `a`, `b`,
the outspends of `a` pointing at `b` match the inputs of `b` referencing `a`,
with multiplicity. -/
def ConsistentOutspends (m : TxMap) : Prop :=
  ∀ a ∈ keysRec m, ∀ b ∈ keysRec m, outspendCount m a b = vinRefCount m b a

/-- The in-set spend relation is acyclic: it is irreflexive and the keys admit
a topological arrangement in which no later transaction feeds an earlier one. -/
def AcyclicSpend (m : TxMap) : Prop :=
  (∀ t ∈ keysRec m, spendsInto m t t = false) ∧
  ∃ l : List String, l.Perm (keysRec m) ∧
    l.Pairwise (fun a b => spendsInto m b a = false)

/-- How many inputs of `t` reference an in-set transaction outside `done`. -/
def remainingCount (m : TxMap) (done : List String) (t : String) : Nat :=
  match lookupRec m t with
  | none => 0
  | some tx =>
    (tx.data.vin.filter (fun v =>
      match v.txid with
      | some p => (lookupRec m p).isSome && ¬ (done.contains p)
      | none => false)).length

/-- How many records in `os` are effective decrements for target `r`:
spent, pointing at `r`, with `r` in the node set. -/
def effCount (m : TxMap) (os : List MempoolOutspend) (r : String) : Nat :=
  (os.filter (fun o => o.spent && o.txid = some r && (lookupRec m r).isSome)).length

/-- The loop measure of `computeSubIndexes`: queued plus pending entries. -/
def siMeasure (st : SIState) : Nat :=
  st.workQueue.length + st.inputsLeft.length

/-- The invariant of the `computeSubIndexes` work loop (at loop boundaries):
the queue, the assigned keys and the pending keys are duplicate-free, in-set
and mutually disjoint, together they cover the node set, queued and assigned
transactions have no pending in-set predecessor, each pending entry stores
its exact pending-predecessor count (which is positive), every assigned
sub-index is at least `1`, and assigned transactions sit strictly above every
in-set predecessor. -/
def SIInv (m : TxMap) (st : SIState) : Prop :=
  st.workQueue.Nodup ∧
  (keysRec st.subIndexes).Nodup ∧
  (keysRec st.inputsLeft).Nodup ∧
  (∀ t ∈ st.workQueue, t ∈ keysRec m) ∧
  (∀ t ∈ keysRec st.subIndexes, t ∈ keysRec m) ∧
  (∀ t ∈ keysRec st.inputsLeft, t ∈ keysRec m) ∧
  (∀ t ∈ st.workQueue, t ∉ keysRec st.subIndexes) ∧
  (∀ t ∈ st.workQueue, t ∉ keysRec st.inputsLeft) ∧
  (∀ t ∈ keysRec st.subIndexes, t ∉ keysRec st.inputsLeft) ∧
  (∀ t ∈ keysRec m, t ∈ keysRec st.subIndexes ∨ t ∈ st.workQueue ∨
    t ∈ keysRec st.inputsLeft) ∧
  (∀ t ∈ st.workQueue, remainingCount m (keysRec st.subIndexes) t = 0) ∧
  (∀ t ∈ keysRec st.subIndexes, remainingCount m (keysRec st.subIndexes) t = 0) ∧
  (∀ t ∈ keysRec st.inputsLeft,
    lookupRec st.inputsLeft t
      = some ((remainingCount m (keysRec st.subIndexes) t : Int)) ∧
    0 < remainingCount m (keysRec st.subIndexes) t) ∧
  (∀ e ∈ st.subIndexes, (1 : WithBot Int) ≤ e.2) ∧
  (∀ t ∈ keysRec st.subIndexes, ∀ p, spendsInto m p t = true →
    ∃ vp vt, lookupRec st.subIndexes p = some vp ∧
      lookupRec st.subIndexes t = some vt ∧ vp + 1 ≤ vt)

/-! ## Concrete inputs used by the counterexamples and witnesses -/

def exPrevU (n : Nat) : Prevout := ⟨some ("u_addr_" ++ toString n), 5⟩

def exPrevA : Prevout := ⟨some "addr_alice_xx", 10⟩

def exAddrs : List (String × StoredAddress) :=
  [("addr_alice_xx", ⟨some "Alice", none⟩), ("addr_bob_xxxx", ⟨some "Bob", none⟩)]

/-- Six inputs: three spending loaded transactions `t1 t2 t3`, one labeled
(`Alice`), two unlabeled. -/
def exVinsC1 : List MempoolVin :=
  [ ⟨some "t1", false, some (exPrevU 1)⟩,
    ⟨some "t2", false, some (exPrevU 2)⟩,
    ⟨some "t3", false, some (exPrevU 3)⟩,
    ⟨some "t4", false, some exPrevA⟩,
    ⟨some "t5", false, some (exPrevU 5)⟩,
    ⟨some "t6", false, some (exPrevU 6)⟩ ]

/-- Six outputs: one labeled (`Alice`), four unlabeled, one null-data
(`op_return`) output at index `5`. -/
def exVoutsC2 : List MempoolVout :=
  [ ⟨some "addr_alice_xx", some "p2pkh", 10⟩,
    ⟨some "u1", some "p2pkh", 1⟩,
    ⟨some "u2", some "p2pkh", 2⟩,
    ⟨some "u3", some "p2pkh", 3⟩,
    ⟨some "u4", some "p2pkh", 4⟩,
    ⟨none, some "op_return", 0⟩ ]

/-- Five outputs, none labeled, one null-data (`op_return`) output at index 4. -/
def exVoutsC4 : List MempoolVout :=
  [ ⟨some "u1", some "p2pkh", 1⟩,
    ⟨some "u2", some "p2pkh", 2⟩,
    ⟨some "u3", some "p2pkh", 3⟩,
    ⟨some "u4", some "p2pkh", 4⟩,
    ⟨none, some "op_return", 0⟩ ]

/-- Six outputs, none individually labeled. -/
def exVoutsC9a : List MempoolVout :=
  (List.range 6).map (fun i => ⟨some ("u" ++ toString i), some "p2pkh", (i : Int) + 1⟩)

/-- Six outputs, two labeled under different addresses, four not. -/
def exVoutsC9b : List MempoolVout :=
  [ ⟨some "addr_alice_xx", some "p2pkh", 10⟩,
    ⟨some "addr_bob_xxxx", some "p2pkh", 11⟩,
    ⟨some "u1", some "p2pkh", 1⟩,
    ⟨some "u2", some "p2pkh", 2⟩,
    ⟨some "u3", some "p2pkh", 3⟩,
    ⟨some "u4", some "p2pkh", 4⟩ ]

/-- Six outputs, five labeled under the same address, one not. -/
def exVoutsC9c : List MempoolVout :=
  List.replicate 5 (⟨some "addr_alice_xx", some "p2pkh", 10⟩ : MempoolVout) ++
  [⟨some "u1", some "p2pkh", 1⟩]

/-- A confirmed transaction with an empty input list whose single output is
spent by `aa` (same height): the degenerate node refuting the unrestricted
ordering claim. -/
def exTxZZ : StoredTransaction :=
  { coordinates := (0, 0),
    data := { vin := [], vout := [⟨some "o", some "p2pkh", 5⟩],
              status := ⟨true, some 100⟩ },
    outspends := [⟨true, some "aa", some 0⟩] }

/-- The spender of `exTxZZ`'s output, at the same height. -/
def exTxAA : StoredTransaction :=
  { coordinates := (0, 0),
    data := { vin := [⟨some "zz", false, some ⟨some "o", 5⟩⟩], vout := [],
              status := ⟨true, some 100⟩ },
    outspends := [] }

/-- The two-node set for the ordering counterexample: `zz` (spent, empty vin)
and `aa` (spender), both at height 100; acyclic and outspend-consistent. -/
def exMapC3 : TxMap := [("zz", exTxZZ), ("aa", exTxAA)]

/-- A well-formed funding transaction (`aa`, coinbase-style input, height 100,
stored at x = 100) whose output is spent by `bb`. -/
def exTxFund : StoredTransaction :=
  { coordinates := (100, 0),
    data := { vin := [⟨none, true, none⟩], vout := [⟨some "o", some "p2pkh", 7⟩],
              status := ⟨true, some 100⟩ },
    outspends := [⟨true, some "bb", some 0⟩] }

/-- The spender of `exTxFund`'s output (`bb`), same height 100. -/
def exTxSpend : StoredTransaction :=
  { coordinates := (0, 0),
    data := { vin := [⟨some "aa", false, some ⟨some "o", 7⟩⟩],
              vout := [⟨some "p", some "p2pkh", 6⟩],
              status := ⟨true, some 100⟩ },
    outspends := [⟨false, none, none⟩] }

/-- The two-node set used by the ordering, placement and layout witnesses. -/
def exMapOK : TxMap := [("aa", exTxFund), ("bb", exTxSpend)]

/-! # Theorems -/

/-- Claim C1 (code bug): the aggregation capacity invariant fails on the code.
With six inputs, three of them connected to loaded counter-transactions and the
remaining pool containing one individually labeled and two unlabeled inputs
(`placesLeft = 1`), `computeInputHandles` emits five handles — three individual
connected handles, one labeled-group handle and one "2 other inputs" handle —
exceeding the configured cap of 4. -/
theorem c1_capacity_code_bug :
    (computeInputHandles exVinsC1 exAddrs [] ["t1", "t2", "t3"]).length = 5 := by
  decide

/-- Claim C2 (code bug): the coverage invariant fails on the code.  With six
outputs of which one is individually labeled and one is a null-data
(`op_return`) output at index 5, the handles returned by
`computeOutputHandles` cover exactly the indices 0..4: the null-data output's
index belongs to no handle. -/
theorem c2_coverage_code_bug :
    ((computeOutputHandles exVoutsC2 [] exAddrs [] []).flatMap
      (fun h => h.voutIndices)) = [0, 1, 2, 3, 4] ∧
    exVoutsC2.length = 6 := by
  decide

/-- Claim C9 (confirmed): the three concrete aggregation label rules.  Six
outputs, none individually labeled, yield exactly one handle labeled
"6 outputs" covering every index; six outputs with two labeled under different
addresses and four not yield the two individual handles plus one
"4 other outputs" handle; six outputs with five labeled under the same address
and one not yield a first handle labeled "5 outputs: Alice" followed by the
single remaining output individually (no counter-transactions loaded). -/
theorem c9_label_rules :
    ((computeOutputHandles exVoutsC9a [] exAddrs [] []).map
        (fun h => (h.label, h.voutIndices)) =
      [("6 outputs", [0, 1, 2, 3, 4, 5])]) ∧
    ((computeOutputHandles exVoutsC9b [] exAddrs [] []).map
        (fun h => (h.label, h.voutIndices)) =
      [("Alice", [0]), ("Bob", [1]), ("4 other outputs", [2, 3, 4, 5])]) ∧
    ((computeOutputHandles exVoutsC9c [] exAddrs [] []).map
        (fun h => (h.label, h.voutIndices)) =
      [("5 outputs: Alice", [0, 1, 2, 3, 4]), ("u1", [5])]) := by
  decide

/-- Claim C3 counterexample: on the two-node set `exMapC3` — whose in-set
spend relation is acyclic and whose outspends are consistent with the input
references — the output of `zz` is spent by `aa` and both share height 100,
yet `zz` does not precede `aa` in `sortTxids` (a node with an empty input
list receives the sub-index `-Infinity`, and so does its spender, so the
identifier tie-break decides the order). -/
theorem c3_order_counterexample :
    (keysRec exMapC3).Nodup ∧
    ConsistentOutspends exMapC3 ∧
    AcyclicSpend exMapC3 ∧
    heightKey exMapC3 "zz" = heightKey exMapC3 "aa" ∧
    0 < outspendCount exMapC3 "zz" "aa" ∧
    ¬ ((sortTxids exMapC3).indexOf "zz" < (sortTxids exMapC3).indexOf "aa") := by
  unfold ConsistentOutspends AcyclicSpend
  exact ⟨by decide, by decide, ⟨by decide, ["zz", "aa"], by decide, by decide⟩,
    by decide, by decide, by decide⟩

/-- Claim C4 counterexample: with five outputs, none individually labeled and
the one at index 4 a null-data (`op_return`) output, `computeOutputHandles`
returns a single summary handle that contains the null-data index together
with every other index, and its label is not "OP_RETURN". -/
theorem c4_opreturn_counterexample :
    ∃ h ∈ computeOutputHandles exVoutsC4 [] [] [] [],
      4 ∈ h.voutIndices ∧ 0 ∈ h.voutIndices ∧
      isOpReturnVout (exVoutsC4.getD 4 ⟨none, none, 0⟩) = true ∧
      h.label ≠ "OP_RETURN" := by
  decide

/-! ## Association-list and list toolkit lemmas -/

theorem lookupRec_cons_self {α : Type} (k : String) (v : α) (r : List (String × α)) :
    lookupRec ((k, v) :: r) k = some v := by
  simp [lookupRec, List.find?]

theorem lookupRec_cons_ne {α : Type} {k k' : String} (v : α) (r : List (String × α))
    (h : k' ≠ k) : lookupRec ((k, v) :: r) k' = lookupRec r k' := by
  simp only [lookupRec, List.find?]
  have : ((k, v).1 = k') = False := by simp [h.symm]
  simp [this]

theorem lookupRec_isSome_iff {α : Type} (m : List (String × α)) (t : String) :
    (lookupRec m t).isSome ↔ t ∈ keysRec m := by
  induction m with
  | nil => simp [lookupRec, keysRec]
  | cons e r ih =>
    by_cases h : t = e.1
    · subst h
      simp [lookupRec_cons_self e.1 e.2 r, keysRec]
    · rw [show (e : String × α) = (e.1, e.2) from rfl] at *
      rw [lookupRec_cons_ne e.2 r h]
      simp only [keysRec, List.map_cons, List.mem_cons]
      rw [keysRec] at ih
      simp [ih, h]

theorem lookup_map_self {α : Type} (l : List String) (g : String → α) (t : String)
    (ht : t ∈ l) : lookupRec (l.map (fun s => (s, g s))) t = some (g t) := by
  induction l with
  | nil => cases ht
  | cons a r ih =>
    rcases List.mem_cons.mp ht with h | h
    · subst h
      simp [lookupRec_cons_self]
    · by_cases hta : t = a
      · subst hta
        simp [lookupRec_cons_self]
      · rw [List.map_cons, lookupRec_cons_ne _ _ hta]
        exact ih h

theorem mem_sortTxids (m : TxMap) (t : String) : t ∈ sortTxids m ↔ t ∈ keysRec m := by
  unfold sortTxids
  exact (List.perm_insertionSort _ _).mem_iff

theorem sortTxids_length (m : TxMap) : (sortTxids m).length = m.length := by
  unfold sortTxids
  rw [(List.perm_insertionSort _ _).length_eq]
  simp [keysRec]

theorem sortTxids_nodup (m : TxMap) (h : (keysRec m).Nodup) : (sortTxids m).Nodup := by
  unfold sortTxids
  exact (List.perm_insertionSort _ _).nodup_iff.mpr h

theorem foldl_max_init_le (l : List ℚ) (a : ℚ) : a ≤ l.foldl max a := by
  induction l generalizing a with
  | nil => exact le_refl a
  | cons x xs ih => exact le_trans (le_max_left a x) (ih (max a x))

theorem le_foldl_max (l : List ℚ) (a x : ℚ) (hx : x ∈ l) : x ≤ l.foldl max a := by
  induction l generalizing a with
  | nil => cases hx
  | cons y ys ih =>
    rcases List.mem_cons.mp hx with h | h
    · subst h
      exact le_trans (le_max_right a x) (foldl_max_init_le ys (max a x))
    · exact ih (max a y) h

theorem jsMaxQ_mem_le (l : List ℚ) (x : ℚ) (hx : x ∈ l) : x ≤ jsMaxQ l := by
  cases l with
  | nil => cases hx
  | cons y ys =>
    rcases List.mem_cons.mp hx with h | h
    · subst h
      exact foldl_max_init_le ys x
    · exact le_foldl_max ys y x h

theorem foldl_min_const (xs : List ℚ) (a : ℚ) (h : ∀ y ∈ xs, y = a) :
    xs.foldl min a = a := by
  induction xs with
  | nil => rfl
  | cons y ys ih =>
    have hy : y = a := h y (List.mem_cons_self y ys)
    subst hy
    rw [List.foldl_cons, min_self]
    exact ih (fun z hz => h z (List.mem_cons_of_mem y hz))

theorem foldl_max_const (xs : List ℚ) (a : ℚ) (h : ∀ y ∈ xs, y = a) :
    xs.foldl max a = a := by
  induction xs with
  | nil => rfl
  | cons y ys ih =>
    have hy : y = a := h y (List.mem_cons_self y ys)
    subst hy
    rw [List.foldl_cons, max_self]
    exact ih (fun z hz => h z (List.mem_cons_of_mem y hz))

theorem two_le_length_of_mem {α : Type} {a b : α} {l : List α}
    (ha : a ∈ l) (hb : b ∈ l) (hab : a ≠ b) : 2 ≤ l.length := by
  cases l with
  | nil => cases ha
  | cons x xs =>
    cases xs with
    | nil =>
      rw [List.mem_singleton] at ha hb
      exact absurd (ha.trans hb.symm) hab
    | cons y ys =>
      simp only [List.length_cons]
      omega

theorem lookup_enumFromMap (l : List String) (f : Nat → ℚ) (n : Nat) (hl : l.Nodup) :
    l.map (fun t => (lookupRec ((List.enumFrom n l).map (fun p => (p.2, f p.1))) t).getD 0)
      = (List.range l.length).map (fun i => f (n + i)) := by
  induction l generalizing n f with
  | nil => simp
  | cons a r ih =>
    have har : a ∉ r := (List.nodup_cons.mp hl).1
    have hrnd : r.Nodup := (List.nodup_cons.mp hl).2
    rw [List.enumFrom_cons, List.map_cons, List.map_cons]
    rw [List.length_cons, List.range_succ_eq_map, List.map_cons]
    congr 1
    · rw [lookupRec_cons_self]
      simp
    · rw [List.map_map]
      have step : ∀ t ∈ r,
          (lookupRec ((a, f n) :: (List.enumFrom (n + 1) r).map (fun p => (p.2, f p.1))) t).getD 0
            = (lookupRec ((List.enumFrom (n + 1) r).map (fun p => (p.2, f p.1))) t).getD 0 := by
        intro t htr
        have hta : t ≠ a := fun h => har (h ▸ htr)
        rw [lookupRec_cons_ne _ _ hta]
      rw [List.map_congr_left step, ih (fun i => f i) (n + 1) hrnd]
      apply List.map_congr_left
      intro i _
      simp only [Function.comp]
      congr 1
      omega

theorem sum_range_affine (n : Nat) (c g : ℚ) :
    ((List.range n).map (fun (i : Nat) => c + (i : ℚ) * g)).sum
      = (n : ℚ) * c + g * ((n : ℚ) * ((n : ℚ) - 1)) / 2 := by
  induction n with
  | zero => simp
  | succ k ih =>
    rw [List.range_succ, List.map_append, List.sum_append, ih]
    push_cast
    simp only [List.map_cons, List.map_nil, List.sum_cons, List.sum_nil]
    ring

theorem xPositions_values (sorted : List String) (hnd : sorted.Nodup) :
    sorted.map (fun t => (lookupRec (xPositions sorted) t).getD 0)
      = (List.range sorted.length).map
          (fun (i : Nat) => -(((sorted.length : ℚ) - 1) * NODE_GAP) / 2 + (i : ℚ) * NODE_GAP) := by
  have h := lookup_enumFromMap sorted
    (fun (i : Nat) => -(((sorted.length : ℚ) - 1) * NODE_GAP) / 2 + (i : ℚ) * NODE_GAP) 0 hnd
  simp only [Nat.zero_add] at h
  rw [← h]
  rfl

theorem xsum_zero (sorted : List String) (hnd : sorted.Nodup) :
    (sorted.map (fun t => (lookupRec (xPositions sorted) t).getD 0)).sum = 0 := by
  rw [xPositions_values sorted hnd, sum_range_affine]
  ring

theorem computeLayout_map_x (solverY : Option (String → ℚ)) (m : TxMap)
    (hne : sortTxids m ≠ []) :
    (computeLayout solverY m).map (fun p => p.2.1)
      = (sortTxids m).map (fun t => (lookupRec (xPositions (sortTxids m)) t).getD 0) := by
  unfold computeLayout
  rw [if_neg (by simpa [List.length_eq_zero] using hne)]
  cases solverY with
  | none =>
    rw [List.map_map]
    rfl
  | some yOf =>
    simp only
    split
    · next hYV =>
      rw [List.map_map]
      rfl
    · next hYV =>
      rw [List.map_map, List.map_map]
      rfl

/-- Claim C5 (confirmed): when the external layered-graph solver throws, the
map returned by `computeLayout` still contains every node of the set, pairing
the freshly computed evenly-spaced X from the total order with the node's
previously stored Y coordinate. -/
theorem c5_solver_failure_fallback (m : TxMap) (t : String) (ht : t ∈ keysRec m) :
    lookupRec (computeLayout none m) t =
      some ((lookupRec (xPositions (sortTxids m)) t).getD 0,
        ((lookupRec m t).map (fun tx => tx.coordinates.2)).getD 0) := by
  have hts : t ∈ sortTxids m := (mem_sortTxids m t).mpr ht
  have hne : sortTxids m ≠ [] := List.ne_nil_of_mem hts
  unfold computeLayout
  rw [if_neg (by simpa [List.length_eq_zero] using hne)]
  exact lookup_map_self (sortTxids m)
    (fun s => ((lookupRec (xPositions (sortTxids m)) s).getD 0,
      ((lookupRec m s).map (fun tx => tx.coordinates.2)).getD 0)) t hts

/-- Claim C5 witness at a concrete two-node set. -/
theorem c5_solver_failure_witness :
    lookupRec (computeLayout none exMapOK) "aa" =
      some ((lookupRec (xPositions (sortTxids exMapOK)) "aa").getD 0,
        ((lookupRec exMapOK "aa").map (fun tx => tx.coordinates.2)).getD 0) :=
  c5_solver_failure_fallback exMapOK "aa" (by decide)

/-- Claim C7 (confirmed): in a full relayout of a non-empty node set the mean
of all assigned X coordinates is exactly `0` — the positions are the evenly
spaced, midpoint-centred sequence — on the solver-success path (for every
solver answer) and on the solver-failure path alike. -/
theorem c7_centered_mean_zero (solverY : Option (String → ℚ)) (m : TxMap)
    (hnd : (keysRec m).Nodup) (hne : m ≠ []) :
    computeLayout solverY m ≠ [] ∧
    ((computeLayout solverY m).map (fun p => p.2.1)).sum = 0 ∧
    ((computeLayout solverY m).map (fun p => p.2.1)).sum /
      ((computeLayout solverY m).length : ℚ) = 0 := by
  have hsnd : (sortTxids m).Nodup := sortTxids_nodup m hnd
  have hlen : (sortTxids m).length = m.length := sortTxids_length m
  have hsne : sortTxids m ≠ [] := by
    intro h
    apply hne
    have : m.length = 0 := by rw [← hlen, h]; rfl
    exact List.length_eq_zero.mp this
  have hmap := computeLayout_map_x solverY m hsne
  have hsum : ((computeLayout solverY m).map (fun p => p.2.1)).sum = 0 := by
    rw [hmap]
    exact xsum_zero (sortTxids m) hsnd
  refine ⟨?_, hsum, by rw [hsum]; exact zero_div _⟩
  intro h
  apply hsne
  have : (computeLayout solverY m).map (fun p => p.2.1) = [] := by rw [h]; rfl
  rw [hmap] at this
  exact List.map_eq_nil_iff.mp this

/-- Claim C7 witness at a concrete two-node set, on both solver paths. -/
theorem c7_centered_mean_zero_witness :
    (((computeLayout none exMapOK).map (fun p => p.2.1)).sum = 0) ∧
    (((computeLayout (some (fun _ => 7)) exMapOK).map (fun p => p.2.1)).sum = 0) :=
  ⟨(c7_centered_mean_zero none exMapOK (by decide) (by decide)).2.1,
   (c7_centered_mean_zero (some (fun _ => 7)) exMapOK (by decide) (by decide)).2.1⟩

/-- Claim C6 (confirmed): `computeInitialX` applies the input-source clamp
after the output-consumer clamp, so for every in-set input source `s` of the
placed node (distinct from the node itself) the result is at least
`coordX s + NODE_WIDTH + SMALL_GAP`, i.e. at least the maximal source X plus
260 plus 30. -/
theorem c6_input_source_clamp (m : TxMap) (txid s : String)
    (hs : s ∈ inputTxidsOf m txid) (hst : s ≠ txid) :
    coordX m s + NODE_WIDTH + SMALL_GAP ≤ computeInitialX txid m := by
  have hsm : s ∈ keysRec m := by
    have := List.of_mem_filter hs
    exact (lookupRec_isSome_iff m s).mp (by simpa using this)
  have htm : txid ∈ keysRec m := by
    by_contra habs
    have : lookupRec m txid = none := by
      cases h : lookupRec m txid with
      | none => rfl
      | some v =>
        exact absurd ((lookupRec_isSome_iff m txid).mp (by simp [h])) habs
    rw [inputTxidsOf, this] at hs
    simp at hs
  have hlen2 : 2 ≤ (sortTxids m).length := by
    rw [sortTxids_length m]
    have : 2 ≤ (keysRec m).length := two_le_length_of_mem hsm htm hst
    simpa [keysRec] using this
  have hxm : coordX m s ∈ (inputTxidsOf m txid).map (coordX m) :=
    List.mem_map_of_mem (coordX m) hs
  have hmax : coordX m s ≤ jsMaxQ ((inputTxidsOf m txid).map (coordX m)) :=
    jsMaxQ_mem_le _ _ hxm
  unfold computeInitialX
  rw [if_neg (by omega)]
  simp only
  rw [if_pos (by exact List.length_pos.mpr (List.ne_nil_of_mem hs))]
  calc coordX m s + NODE_WIDTH + SMALL_GAP
      ≤ jsMaxQ ((inputTxidsOf m txid).map (coordX m)) + NODE_WIDTH + SMALL_GAP := by
        have := hmax
        linarith
    _ ≤ _ := le_max_right _ _

/-- Claim C6 witness: inserting `bb`, whose single input spends the existing
node `aa` stored at X = 100, yields an X of at least 100 + 260 + 30 = 390. -/
theorem c6_input_source_clamp_witness :
    coordX exMapOK "aa" + NODE_WIDTH + SMALL_GAP ≤ computeInitialX "bb" exMapOK :=
  c6_input_source_clamp exMapOK "bb" "aa" (by decide) (by decide)

theorem jsMinQ_eq_jsMaxQ (l : List ℚ) (h : ∀ x ∈ l, ∀ y ∈ l, x = y) :
    jsMinQ l = jsMaxQ l := by
  cases l with
  | nil => rfl
  | cons a xs =>
    have hall : ∀ y ∈ xs, y = a := by
      intro y hy
      exact h y (List.mem_cons_of_mem a hy) a (List.mem_cons_self a xs)
    show xs.foldl min a = xs.foldl max a
    rw [foldl_min_const xs a hall, foldl_max_const xs a hall]

/-- Claim C8 (confirmed): `computeEdgeWidth` returns the minimum width 2
whenever the scope contains no positive value or the candidate value is
non-positive; and, when the scope does contain positive values and the
candidate is positive, it returns the fixed midpoint width 4 whenever all
positive values in the scope are equal (the first rule takes precedence, as in
the source). -/
theorem c8_edge_width_min_and_midpoint (amount : ℚ) (allAmounts : List ℚ) :
    ((allAmounts.filter (fun a => 0 < a) = [] ∨ amount ≤ 0) →
      computeEdgeWidth amount allAmounts = 2) ∧
    (allAmounts.filter (fun a => 0 < a) ≠ [] → 0 < amount →
      (∀ x ∈ allAmounts.filter (fun a => 0 < a),
        ∀ y ∈ allAmounts.filter (fun a => 0 < a), x = y) →
      computeEdgeWidth amount allAmounts = 4) := by
  constructor
  · intro h
    rcases h with hfil | hneg
    · unfold computeEdgeWidth
      by_cases hnil : allAmounts.length = 0 ∨ amount ≤ 0
      · rw [if_pos hnil]
      · rw [if_neg hnil]
        simp only
        rw [if_pos (by rw [hfil]; rfl)]
    · unfold computeEdgeWidth
      rw [if_pos (Or.inr hneg)]
  · intro hfil hpos hall
    have hnil : ¬ (allAmounts.length = 0 ∨ amount ≤ 0) := by
      push_neg
      constructor
      · intro hzero
        apply hfil
        rw [List.length_eq_zero.mp hzero]
        rfl
      · exact hpos
    unfold computeEdgeWidth
    rw [if_neg hnil]
    simp only
    rw [if_neg (by simpa [List.length_eq_zero] using hfil)]
    rw [if_pos (by rw [jsMinQ_eq_jsMaxQ _ hall])]

/-- Claim C8 witness: a non-positive candidate yields the minimum width and a
scope of two equal positive values yields the midpoint width. -/
theorem c8_edge_width_witness :
    computeEdgeWidth 0 [5] = 2 ∧ computeEdgeWidth 2 [3, 3] = 4 :=
  ⟨(c8_edge_width_min_and_midpoint 0 [5]).1 (Or.inr le_rfl),
   (c8_edge_width_min_and_midpoint 2 [3, 3]).2 (by decide) (by decide) (by decide)⟩

/-! ## Record-operation lemmas for the work-loop analysis -/

theorem eraseRec_length {α : Type} (l : List (String × α)) (k : String)
    (h : (lookupRec l k).isSome) : (eraseRec l k).length + 1 = l.length := by
  induction l with
  | nil => simp [lookupRec] at h
  | cons e r ih =>
    by_cases hk : e.1 = k
    · simp [eraseRec, hk]
    · rw [show (e : String × α) = (e.1, e.2) from rfl] at h
      rw [lookupRec_cons_ne e.2 r (fun hh => hk hh.symm)] at h
      simp only [eraseRec, if_neg hk, List.length_cons]
      rw [← ih h]

theorem insertRec_length_of_mem {α : Type} (l : List (String × α)) (k : String) (v : α)
    (h : (lookupRec l k).isSome) : (insertRec l k v).length = l.length := by
  induction l with
  | nil => simp [lookupRec] at h
  | cons e r ih =>
    by_cases hk : e.1 = k
    · simp [insertRec, hk]
    · rw [show (e : String × α) = (e.1, e.2) from rfl] at h
      rw [lookupRec_cons_ne e.2 r (fun hh => hk hh.symm)] at h
      simp only [insertRec, if_neg hk, List.length_cons]
      rw [ih h]

theorem insertRec_keys {α : Type} (l : List (String × α)) (k : String) (v : α) :
    keysRec (insertRec l k v)
      = if k ∈ keysRec l then keysRec l else keysRec l ++ [k] := by
  induction l with
  | nil => simp [insertRec, keysRec]
  | cons e r ih =>
    by_cases hk : e.1 = k
    · subst hk
      simp [insertRec, keysRec]
    · simp only [insertRec, if_neg hk, keysRec, List.map_cons]
      rw [keysRec] at ih
      rw [ih]
      by_cases hmem : k ∈ r.map Prod.fst
      · simp [keysRec, hmem, Ne.symm hk]
      · simp [keysRec, hmem, Ne.symm hk]

theorem insertRec_keys_nodup {α : Type} (l : List (String × α)) (k : String) (v : α)
    (h : (keysRec l).Nodup) : (keysRec (insertRec l k v)).Nodup := by
  rw [insertRec_keys]
  by_cases hmem : k ∈ keysRec l
  · simpa [hmem] using h
  · rw [if_neg hmem]
    simpa [List.nodup_append, hmem] using h

/-- The inner outspend step preserves the loop measure. -/
theorem applyOutspend_measure (m : TxMap) (st : List String × List (String × Int))
    (o : MempoolOutspend) :
    (applyOutspend m st o).1.length + (applyOutspend m st o).2.length
      = st.1.length + st.2.length := by
  unfold applyOutspend
  by_cases hsp : ¬ o.spent
  · rw [if_pos hsp]
  · rw [if_neg hsp]
    cases htx : o.txid with
    | none => rfl
    | some otx =>
      simp only
      by_cases hmem : (lookupRec m otx).isNone
      · rw [if_pos hmem]
      · rw [if_neg hmem]
        by_cases hneg : ((lookupRec st.2 otx).getD 0 : Int) - 1 < 0
        · rw [if_pos hneg]
        · rw [if_neg hneg]
          have hsome : (lookupRec st.2 otx).isSome := by
            cases hl : lookupRec st.2 otx with
            | none => rw [hl] at hneg; simp at hneg
            | some v => simp
          by_cases hzero : ((lookupRec st.2 otx).getD 0 : Int) - 1 = 0
          · rw [if_pos hzero]
            simp only [List.length_append, List.length_singleton]
            have := eraseRec_length st.2 otx hsome
            omega
          · rw [if_neg hzero]
            simp only
            rw [insertRec_length_of_mem st.2 otx _ hsome]

/-- The inner outspend step only enqueues keys of the node set. -/
theorem applyOutspend_queue_sub (m : TxMap) (st : List String × List (String × Int))
    (o : MempoolOutspend) (t : String) (ht : t ∈ (applyOutspend m st o).1) :
    t ∈ st.1 ∨ t ∈ keysRec m := by
  unfold applyOutspend at ht
  by_cases hsp : ¬ o.spent
  · rw [if_pos hsp] at ht; exact Or.inl ht
  · rw [if_neg hsp] at ht
    cases htx : o.txid with
    | none => rw [htx] at ht; exact Or.inl ht
    | some otx =>
      rw [htx] at ht
      simp only at ht
      by_cases hmem : (lookupRec m otx).isNone
      · rw [if_pos hmem] at ht; exact Or.inl ht
      · rw [if_neg hmem] at ht
        by_cases hneg : ((lookupRec st.2 otx).getD 0 : Int) - 1 < 0
        · rw [if_pos hneg] at ht; exact Or.inl ht
        · rw [if_neg hneg] at ht
          by_cases hzero : ((lookupRec st.2 otx).getD 0 : Int) - 1 = 0
          · rw [if_pos hzero] at ht
            rcases List.mem_append.mp ht with h | h
            · exact Or.inl h
            · rw [List.mem_singleton] at h
              subst h
              refine Or.inr ((lookupRec_isSome_iff m t).mp ?_)
              cases hl : lookupRec m t with
              | none => rw [hl] at hmem; simp at hmem
              | some v => simp
          · rw [if_neg hzero] at ht
            exact Or.inl ht

theorem foldl_applyOutspend_measure (m : TxMap) (os : List MempoolOutspend)
    (st : List String × List (String × Int)) :
    (os.foldl (applyOutspend m) st).1.length + (os.foldl (applyOutspend m) st).2.length
      = st.1.length + st.2.length := by
  induction os generalizing st with
  | nil => rfl
  | cons o rest ih =>
    rw [List.foldl_cons, ih (applyOutspend m st o), applyOutspend_measure]

theorem foldl_applyOutspend_queue_sub (m : TxMap) (os : List MempoolOutspend)
    (st : List String × List (String × Int)) (t : String)
    (ht : t ∈ (os.foldl (applyOutspend m) st).1) : t ∈ st.1 ∨ t ∈ keysRec m := by
  induction os generalizing st with
  | nil => exact Or.inl ht
  | cons o rest ih =>
    rw [List.foldl_cons] at ht
    rcases ih (applyOutspend m st o) ht with h | h
    · exact applyOutspend_queue_sub m st o t h
    · exact Or.inr h

theorem siLoop_isSome (m : TxMap) (fuel : Nat) (st : SIState)
    (hq : ∀ t ∈ st.workQueue, t ∈ keysRec m)
    (hfuel : siMeasure st ≤ fuel) :
    (siLoop m fuel st).isSome := by
  induction fuel generalizing st with
  | zero =>
    unfold siLoop
    cases hqe : st.workQueue with
    | nil => simp
    | cons t rest =>
      exfalso
      have h1 : 1 ≤ siMeasure st := by
        unfold siMeasure
        rw [hqe]
        simp only [List.length_cons]
        omega
      omega
  | succ n ih =>
    unfold siLoop
    cases hqe : st.workQueue with
    | nil => simp
    | cons t rest =>
      have htm : t ∈ keysRec m := hq t (by rw [hqe]; exact List.mem_cons_self t rest)
      have hsome : (lookupRec m t).isSome := (lookupRec_isSome_iff m t).mpr htm
      cases hl : lookupRec m t with
      | none => rw [hl] at hsome; simp at hsome
      | some tx =>
        simp only
        rw [hl]
        simp only
        apply ih
        · intro u hu
          rcases foldl_applyOutspend_queue_sub m tx.outspends (rest, st.inputsLeft) u hu
            with h | h
          · exact hq u (by rw [hqe]; exact List.mem_cons_of_mem _ h)
          · exact h
        · have hm := foldl_applyOutspend_measure m tx.outspends (rest, st.inputsLeft)
          unfold siMeasure at hfuel ⊢
          rw [hqe] at hfuel
          simp only [List.length_cons] at hfuel
          simp only at hm ⊢
          omega

theorem siLoop_result_nodup (m : TxMap) (fuel : Nat) (st : SIState)
    (r : List (String × WithBot Int))
    (hnd : (keysRec st.subIndexes).Nodup) (h : siLoop m fuel st = some r) :
    (keysRec r).Nodup := by
  induction fuel generalizing st with
  | zero =>
    unfold siLoop at h
    cases hqe : st.workQueue with
    | nil =>
      rw [hqe] at h
      simp only [Option.some.injEq] at h
      rw [← h]
      exact hnd
    | cons t rest => rw [hqe] at h; simp at h
  | succ n ih =>
    unfold siLoop at h
    cases hqe : st.workQueue with
    | nil =>
      rw [hqe] at h
      simp only [Option.some.injEq] at h
      rw [← h]
      exact hnd
    | cons t rest =>
      rw [hqe] at h
      simp only at h
      cases hl : lookupRec m t with
      | none => rw [hl] at h; simp at h
      | some tx =>
        rw [hl] at h
        simp only at h
        exact ih _ (insertRec_keys_nodup _ _ _ hnd) h

theorem initSI_fold_queue (m : TxMap) (l : List (String × StoredTransaction))
    (acc : SIState) (t : String)
    (ht : t ∈ (l.foldl (fun st e =>
      if inSetVinCount m e.2 = 0 then { st with workQueue := st.workQueue ++ [e.1] }
      else { st with inputsLeft :=
        st.inputsLeft ++ [(e.1, (inSetVinCount m e.2 : Int))] }) acc).workQueue) :
    t ∈ acc.workQueue ∨ t ∈ keysRec l := by
  induction l generalizing acc with
  | nil => exact Or.inl ht
  | cons e rest ih =>
    rw [List.foldl_cons] at ht
    rcases ih _ ht with h | h
    · by_cases hc : inSetVinCount m e.2 = 0
      · rw [if_pos hc] at h
        simp only at h
        rcases List.mem_append.mp h with h2 | h2
        · exact Or.inl h2
        · rw [List.mem_singleton] at h2
          subst h2
          exact Or.inr (by simp [keysRec])
      · rw [if_neg hc] at h
        exact Or.inl h
    · exact Or.inr (by simp [keysRec] at h ⊢; exact Or.inr h)

theorem initSI_fold_subs (m : TxMap) (l : List (String × StoredTransaction))
    (acc : SIState) :
    (l.foldl (fun st e =>
      if inSetVinCount m e.2 = 0 then { st with workQueue := st.workQueue ++ [e.1] }
      else { st with inputsLeft :=
        st.inputsLeft ++ [(e.1, (inSetVinCount m e.2 : Int))] }) acc).subIndexes
      = acc.subIndexes := by
  induction l generalizing acc with
  | nil => rfl
  | cons e rest ih =>
    rw [List.foldl_cons, ih]
    by_cases hc : inSetVinCount m e.2 = 0
    · rw [if_pos hc]
    · rw [if_neg hc]

/-- Claim C10 (confirmed): `computeSubIndexes` terminates on every input —
including cyclic or inconsistent spend data — because each transaction is
enqueued at most once: the canonical fuel (queued plus pending entries, which
the loop strictly decreases) always suffices, and the resulting sub-index
record assigns each transaction at most one entry (its keys are duplicate
free); a transaction whose pending count never reaches zero simply stays out
of the result, and `sortTxids` reads its sub-index as the default `0`. -/
theorem c10_subindexes_terminate (m : TxMap) :
    ∃ subs, computeSubIndexes m = some subs ∧ (keysRec subs).Nodup := by
  have hq : ∀ t ∈ (initSI m).workQueue, t ∈ keysRec m := by
    intro t ht
    unfold initSI at ht
    rcases initSI_fold_queue m m ⟨[], [], []⟩ t ht with h | h
    · cases h
    · exact h
  have hs : (siLoop m (siMeasure (initSI m)) (initSI m)).isSome :=
    siLoop_isSome m _ (initSI m) hq (le_refl _)
  rw [Option.isSome_iff_exists] at hs
  obtain ⟨subs, hsubs⟩ := hs
  have hnd0 : (keysRec (initSI m).subIndexes).Nodup := by
    unfold initSI
    rw [initSI_fold_subs m m ⟨[], [], []⟩]
    exact List.nodup_nil
  refine ⟨subs, ?_, siLoop_result_nodup m _ (initSI m) subs hnd0 hsubs⟩
  unfold computeSubIndexes siMeasure at *
  exact hsubs

theorem no_opreturn_index_in_pool (vouts : List MempoolVout)
    (pool : List (Nat × MempoolVout)) (i : Nat) (v : MempoolVout)
    (hcoh : ∀ p ∈ pool, vouts.get? p.1 = some p.2)
    (hfil : ∀ p ∈ pool, isOpReturnVout p.2 = false)
    (hv : vouts.get? i = some v) (hop : isOpReturnVout v = true) :
    i ∉ pool.map Prod.fst := by
  intro hmem
  obtain ⟨p, hp, hpi⟩ := List.mem_map.mp hmem
  have hco := hcoh p hp
  rw [hpi, hv] at hco
  have hpv : p.2 = v := by
    injection hco with h2
    exact h2.symm
  have hf := hfil p hp
  rw [hpv, hop] at hf
  cases hf

theorem named_filter_no_opreturn (addresses : List (String × StoredAddress))
    (groupMap : List (String × AddressGroup)) (ivouts : List (Nat × MempoolVout)) :
    ∀ p ∈ ivouts.filter (voutHasName addresses groupMap), isOpReturnVout p.2 = false := by
  intro p hp
  have := List.of_mem_filter hp
  unfold voutHasName at this
  cases hb : isOpReturnVout p.2
  · rfl
  · rw [hb] at this
    simp at this

theorem unnamed_filter_no_opreturn (addresses : List (String × StoredAddress))
    (groupMap : List (String × AddressGroup)) (ivouts : List (Nat × MempoolVout)) :
    ∀ p ∈ ivouts.filter (voutUnnamed addresses groupMap), isOpReturnVout p.2 = false := by
  intro p hp
  have := List.of_mem_filter hp
  unfold voutUnnamed at this
  cases hb : isOpReturnVout p.2
  · rfl
  · rw [hb] at this
    simp at this

theorem buildCollapsedOutputHandles_opreturn (vouts : List MempoolVout)
    (ivouts : List (Nat × MempoolVout)) (outspends : List MempoolOutspend)
    (addresses : List (String × StoredAddress)) (groupMap : List (String × AddressGroup))
    (placesLeft : Nat) (pre : String) (h : HandleDescriptor) (i : Nat) (v : MempoolVout)
    (hcoh : ∀ p ∈ ivouts, vouts.get? p.1 = some p.2)
    (hh : h ∈ buildCollapsedOutputHandles ivouts outspends addresses groupMap placesLeft pre)
    (hi : i ∈ h.voutIndices)
    (hv : vouts.get? i = some v) (hop : isOpReturnVout v = true) :
    h.id = pre ++ "-all" := by
  have hcohN : ∀ p ∈ ivouts.filter (voutHasName addresses groupMap),
      vouts.get? p.1 = some p.2 :=
    fun p hp => hcoh p (List.mem_of_mem_filter hp)
  have hcohU : ∀ p ∈ ivouts.filter (voutUnnamed addresses groupMap),
      vouts.get? p.1 = some p.2 :=
    fun p hp => hcoh p (List.mem_of_mem_filter hp)
  have hnoN := no_opreturn_index_in_pool vouts
    (ivouts.filter (voutHasName addresses groupMap)) i v hcohN
    (named_filter_no_opreturn addresses groupMap ivouts) hv hop
  have hnoU := no_opreturn_index_in_pool vouts
    (ivouts.filter (voutUnnamed addresses groupMap)) i v hcohU
    (unnamed_filter_no_opreturn addresses groupMap ivouts) hv hop
  unfold buildCollapsedOutputHandles at hh
  simp only at hh
  split at hh
  · rw [List.mem_singleton] at hh
    subst hh
    rfl
  split at hh
  · rcases List.mem_append.mp hh with hmem | hmem
    · exfalso
      obtain ⟨q, hq, hfq⟩ := List.mem_map.mp hmem
      have hq2 : q.2 ∈ ivouts.filter (voutHasName addresses groupMap) :=
        List.snd_mem_of_mem_enum hq
      apply hnoN
      rw [← hfq] at hi
      unfold makeOutHandle at hi
      rw [List.mem_singleton] at hi
      subst hi
      exact List.mem_map_of_mem Prod.fst hq2
    · split at hmem
      · rw [List.mem_singleton] at hmem
        subst hmem
        exact absurd hi hnoU
      · cases hmem
  · rcases List.mem_append.mp hh with hmem | hmem
    · rw [List.mem_singleton] at hmem
      subst hmem
      exact absurd hi hnoN
    · split at hmem
      · split at hmem
        · exfalso
          obtain ⟨q, hq, hfq⟩ := List.mem_map.mp hmem
          have hq2 : q.2 ∈ ivouts.filter (voutUnnamed addresses groupMap) :=
            List.snd_mem_of_mem_enum hq
          apply hnoU
          rw [← hfq] at hi
          unfold makeOutHandle at hi
          rw [List.mem_singleton] at hi
          subst hi
          exact List.mem_map_of_mem Prod.fst hq2
        · rw [List.mem_singleton] at hmem
          subst hmem
          exact absurd hi hnoU
      · cases hmem

/-- Claim C4 (corrected): in every handle list returned by
`computeOutputHandles`, a null-data (`op_return`) output either occupies a
handle of its own — in which case that handle is labeled "OP_RETURN" — or it
has been aggregated into the generic all-outputs summary handle (id
"out-all") that the collapsing path emits when its pool contains no
individually labeled output.  (The original claim — never aggregated, always
labeled "OP_RETURN" — fails on the summary case; see the counterexample.) -/
theorem c4_opreturn_amended (vouts : List MempoolVout) (outspends : List MempoolOutspend)
    (addresses : List (String × StoredAddress)) (groupMap : List (String × AddressGroup))
    (loadedTxids : List String) (h : HandleDescriptor) (i : Nat) (v : MempoolVout)
    (hh : h ∈ computeOutputHandles vouts outspends addresses groupMap loadedTxids)
    (hi : i ∈ h.voutIndices)
    (hv : vouts.get? i = some v) (hop : isOpReturnVout v = true) :
    (h.voutIndices = [i] ∧ h.label = "OP_RETURN") ∨ h.id = "out-all" := by
  have hcoh : ∀ p ∈ vouts.enum, vouts.get? p.1 = some p.2 := by
    intro p hp
    rw [List.get?_eq_getElem?]
    exact List.mem_enum_iff_getElem?.mp hp
  unfold computeOutputHandles at hh
  simp only at hh
  split at hh
  · obtain ⟨p, hp, hfp⟩ := List.mem_map.mp hh
    left
    rw [← hfp] at hi ⊢
    have hpl : (makeOutHandle outspends addresses groupMap p.2 p.1
        ("out-" ++ toString p.1)).voutIndices = [p.1] := rfl
    rw [hpl] at hi ⊢
    rw [List.mem_singleton] at hi
    subst hi
    have hc := hcoh p hp
    rw [hv] at hc
    have hpv : p.2 = v := by
      injection hc with h2
      exact h2.symm
    refine ⟨rfl, ?_⟩
    show (if isOpReturnVout p.2 = true then "OP_RETURN"
      else getDisplayLabel p.2.scriptpubkey_address addresses groupMap) = "OP_RETURN"
    rw [hpv, hop]
    simp
  · split at hh
    · exact Or.inr (buildCollapsedOutputHandles_opreturn vouts vouts.enum outspends
        addresses groupMap 4 "out" h i v hcoh hh hi hv hop)
    · rcases List.mem_append.mp hh with hmem | hmem
      · obtain ⟨q, hq, hfq⟩ := List.mem_map.mp hmem
        left
        rw [← hfq] at hi ⊢
        have hql : (makeOutHandle outspends addresses groupMap q.2 q.1
            ("out-" ++ toString q.1)).voutIndices = [q.1] := rfl
        rw [hql] at hi ⊢
        rw [List.mem_singleton] at hi
        subst hi
        have hc := hcoh q (List.mem_of_mem_filter hq)
        rw [hv] at hc
        have hqv : q.2 = v := by
          injection hc with h2
          exact h2.symm
        refine ⟨rfl, ?_⟩
        show (if isOpReturnVout q.2 = true then "OP_RETURN"
          else getDisplayLabel q.2.scriptpubkey_address addresses groupMap) = "OP_RETURN"
        rw [hqv, hop]
        simp
      · refine Or.inr (buildCollapsedOutputHandles_opreturn vouts _ outspends
          addresses groupMap _ "out" h i v ?_ hmem hi hv hop)
        intro p hp
        exact hcoh p (List.mem_of_mem_filter hp)

/-- Claim C4 witness: the null-data output of `exVoutsC4` (index 4) falls under
the amended dichotomy — here the aggregated summary-handle case. -/
theorem c4_opreturn_witness :
    ∃ h ∈ computeOutputHandles exVoutsC4 [] [] [] [],
      4 ∈ h.voutIndices ∧
      ((h.voutIndices = [4] ∧ h.label = "OP_RETURN") ∨ h.id = "out-all") := by
  have hex : ∃ h ∈ computeOutputHandles exVoutsC4 [] [] [] [], 4 ∈ h.voutIndices := by
    decide
  obtain ⟨h, hh, hi⟩ := hex
  exact ⟨h, hh, hi, c4_opreturn_amended exVoutsC4 [] [] [] [] h 4
    ⟨none, some "op_return", 0⟩ hh hi (by decide) (by decide)⟩

/-! ## More association-list lemmas (erase / insert / append) -/

theorem lookupRec_eraseRec_ne {α : Type} (l : List (String × α)) (k r : String)
    (h : r ≠ k) : lookupRec (eraseRec l k) r = lookupRec l r := by
  induction l with
  | nil => rfl
  | cons e rest ih =>
    by_cases hk : e.1 = k
    · rw [eraseRec, if_pos hk]
      rw [show (e : String × α) = (e.1, e.2) from rfl, hk]
      rw [lookupRec_cons_ne _ _ h]
    · rw [eraseRec, if_neg hk]
      by_cases hr : e.1 = r
      · rw [show (e : String × α) = (e.1, e.2) from rfl, hr]
        rw [lookupRec_cons_self, lookupRec_cons_self]
      · rw [show (e : String × α) = (e.1, e.2) from rfl]
        rw [lookupRec_cons_ne _ _ (fun hh => hr hh.symm),
          lookupRec_cons_ne _ _ (fun hh => hr hh.symm)]
        exact ih

theorem eraseRec_keys_sub {α : Type} (l : List (String × α)) (k r : String)
    (h : r ∈ keysRec (eraseRec l k)) : r ∈ keysRec l := by
  induction l with
  | nil => exact h
  | cons e rest ih =>
    by_cases hk : e.1 = k
    · rw [eraseRec, if_pos hk] at h
      exact (by simp [keysRec] at h ⊢; exact Or.inr h)
    · rw [eraseRec, if_neg hk] at h
      simp only [keysRec, List.map_cons, List.mem_cons] at h ⊢
      rcases h with h | h
      · exact Or.inl h
      · exact Or.inr (ih h)

theorem eraseRec_keys_nodup {α : Type} (l : List (String × α)) (k : String)
    (h : (keysRec l).Nodup) : (keysRec (eraseRec l k)).Nodup := by
  induction l with
  | nil => exact h
  | cons e rest ih =>
    rw [keysRec, List.map_cons, List.nodup_cons] at h
    by_cases hk : e.1 = k
    · rw [eraseRec, if_pos hk]
      exact h.2
    · rw [eraseRec, if_neg hk]
      rw [keysRec, List.map_cons, List.nodup_cons]
      refine ⟨fun hmem => h.1 (eraseRec_keys_sub rest k e.1 hmem), ih h.2⟩

theorem lookupRec_eraseRec_self {α : Type} (l : List (String × α)) (k : String)
    (h : (keysRec l).Nodup) : lookupRec (eraseRec l k) k = none := by
  induction l with
  | nil => rfl
  | cons e rest ih =>
    rw [keysRec, List.map_cons, List.nodup_cons] at h
    by_cases hk : e.1 = k
    · rw [eraseRec, if_pos hk]
      cases hl : lookupRec rest k with
      | none => rfl
      | some v =>
        exfalso
        apply h.1
        rw [hk]
        exact (lookupRec_isSome_iff rest k).mp (by simp [hl])
    · rw [eraseRec, if_neg hk]
      rw [show (e : String × α) = (e.1, e.2) from rfl,
        lookupRec_cons_ne _ _ (fun hh => hk hh.symm)]
      exact ih h.2

theorem lookupRec_insertRec_self {α : Type} (l : List (String × α)) (k : String) (v : α) :
    lookupRec (insertRec l k v) k = some v := by
  induction l with
  | nil => simp [insertRec, lookupRec_cons_self]
  | cons e rest ih =>
    by_cases hk : e.1 = k
    · rw [insertRec, if_pos hk, lookupRec_cons_self]
    · rw [insertRec, if_neg hk]
      rw [show (e : String × α) = (e.1, e.2) from rfl,
        lookupRec_cons_ne _ _ (fun hh => hk hh.symm)]
      exact ih

theorem lookupRec_insertRec_ne {α : Type} (l : List (String × α)) (k r : String) (v : α)
    (h : r ≠ k) : lookupRec (insertRec l k v) r = lookupRec l r := by
  induction l with
  | nil => simp [insertRec, lookupRec, List.find?, Ne.symm h]
  | cons e rest ih =>
    by_cases hk : e.1 = k
    · rw [insertRec, if_pos hk, lookupRec_cons_ne _ _ h]
      rw [show (e : String × α) = (e.1, e.2) from rfl, hk, lookupRec_cons_ne _ _ h]
    · rw [insertRec, if_neg hk]
      by_cases hr : e.1 = r
      · rw [show (e : String × α) = (e.1, e.2) from rfl, hr,
          lookupRec_cons_self, lookupRec_cons_self]
      · rw [show (e : String × α) = (e.1, e.2) from rfl,
          lookupRec_cons_ne _ _ (fun hh => hr hh.symm),
          lookupRec_cons_ne _ _ (fun hh => hr hh.symm)]
        exact ih

theorem insertRec_of_not_mem {α : Type} (l : List (String × α)) (k : String) (v : α)
    (h : k ∉ keysRec l) : insertRec l k v = l ++ [(k, v)] := by
  induction l with
  | nil => rfl
  | cons e rest ih =>
    rw [keysRec, List.map_cons, List.mem_cons] at h
    push_neg at h
    rw [insertRec, if_neg (fun hh => h.1 hh.symm), List.cons_append, ih h.2]

theorem lookupRec_append_left {α : Type} (l l2 : List (String × α)) (k : String) (v : α)
    (h : lookupRec l k = some v) : lookupRec (l ++ l2) k = some v := by
  induction l with
  | nil => simp [lookupRec, List.find?] at h
  | cons e rest ih =>
    by_cases hk : e.1 = k
    · rw [show (e : String × α) = (e.1, e.2) from rfl, hk] at h ⊢
      rw [lookupRec_cons_self] at h
      rw [List.cons_append, lookupRec_cons_self]
      exact h
    · rw [show (e : String × α) = (e.1, e.2) from rfl] at h ⊢
      rw [lookupRec_cons_ne _ _ (fun hh => hk hh.symm)] at h
      rw [List.cons_append, lookupRec_cons_ne _ _ (fun hh => hk hh.symm)]
      exact ih h

theorem lookupRec_append_right {α : Type} (l : List (String × α)) (k : String) (v : α)
    (h : k ∉ keysRec l) : lookupRec (l ++ [(k, v)]) k = some v := by
  induction l with
  | nil => exact lookupRec_cons_self k v []
  | cons e rest ih =>
    rw [keysRec, List.map_cons, List.mem_cons] at h
    push_neg at h
    rw [List.cons_append, show (e : String × α) = (e.1, e.2) from rfl,
      lookupRec_cons_ne _ _ (Ne.symm (fun hh => h.1 hh.symm))]
    exact ih h.2

theorem lookupRec_of_mem_nodup {α : Type} (l : List (String × α)) (e : String × α)
    (he : e ∈ l) (hnd : (keysRec l).Nodup) : lookupRec l e.1 = some e.2 := by
  induction l with
  | nil => cases he
  | cons f rest ih =>
    rw [keysRec, List.map_cons, List.nodup_cons] at hnd
    rcases List.mem_cons.mp he with h | h
    · subst h
      rw [show (e : String × α) = (e.1, e.2) from rfl, lookupRec_cons_self]
    · have hne : e.1 ≠ f.1 := by
        intro hh
        apply hnd.1
        rw [← hh]
        exact List.mem_map_of_mem Prod.fst h
      rw [show (f : String × α) = (f.1, f.2) from rfl, lookupRec_cons_ne _ _ hne]
      exact ih h hnd.2

theorem mem_of_lookupRec_eq_some {α : Type} (l : List (String × α)) (k : String) (v : α)
    (h : lookupRec l k = some v) : (k, v) ∈ l := by
  unfold lookupRec at h
  cases hf : l.find? (fun e => e.1 = k) with
  | none => rw [hf] at h; cases h
  | some e =>
    rw [hf] at h
    have hev : e.2 = v := by simpa using h
    have h1 := List.find?_some hf
    have h2 := List.mem_of_find?_eq_some hf
    simp only [decide_eq_true_eq] at h1
    have hekv : e = (k, v) := by
      cases e
      simp only at h1 hev
      rw [h1, hev]
    rw [← hekv]
    exact h2

/-! ## Counting lemmas for the pending-input bookkeeping -/

theorem length_filter_mono {α : Type} (l : List α) (p q : α → Bool)
    (h : ∀ x ∈ l, p x = true → q x = true) :
    (l.filter p).length ≤ (l.filter q).length := by
  rw [← List.countP_eq_length_filter, ← List.countP_eq_length_filter]
  exact List.countP_mono_left h

theorem length_filter_split {α : Type} (l : List α) (p q r : α → Bool)
    (hpq : ∀ x ∈ l, p x = (q x || r x))
    (hqr : ∀ x ∈ l, q x = true → r x = false) :
    (l.filter p).length = (l.filter q).length + (l.filter r).length := by
  induction l with
  | nil => rfl
  | cons x xs ih =>
    have hx := hpq x (List.mem_cons_self x xs)
    have hx2 := hqr x (List.mem_cons_self x xs)
    have ih2 := ih (fun y hy => hpq y (List.mem_cons_of_mem x hy))
      (fun y hy => hqr y (List.mem_cons_of_mem x hy))
    cases hq : q x with
    | true =>
      have hr : r x = false := hx2 hq
      rw [hq, hr] at hx
      simp only [Bool.true_or] at hx
      rw [List.filter_cons_of_pos hx, List.filter_cons_of_pos hq,
        List.filter_cons_of_neg (by rw [hr]; exact Bool.false_ne_true)]
      simp only [List.length_cons]
      omega
    | false =>
      cases hr : r x with
      | true =>
        rw [hq, hr] at hx
        simp only [Bool.false_or] at hx
        rw [List.filter_cons_of_pos hx, List.filter_cons_of_pos hr,
          List.filter_cons_of_neg (by rw [hq]; exact Bool.false_ne_true)]
        simp only [List.length_cons]
        omega
      | false =>
        rw [hq, hr] at hx
        simp only [Bool.false_or] at hx
        rw [List.filter_cons_of_neg (by rw [hx]; exact Bool.false_ne_true),
          List.filter_cons_of_neg (by rw [hq]; exact Bool.false_ne_true),
          List.filter_cons_of_neg (by rw [hr]; exact Bool.false_ne_true)]
        exact ih2

theorem contains_true_iff (l : List String) (a : String) :
    l.contains a = true ↔ a ∈ l := by
  rw [show l.contains a = List.elem a l from rfl, List.elem_eq_mem]
  simp

theorem remainingCount_mono_done (m : TxMap) (done done2 : List String) (t : String)
    (h : ∀ x ∈ done, x ∈ done2) :
    remainingCount m done2 t ≤ remainingCount m done t := by
  unfold remainingCount
  cases hl : lookupRec m t with
  | none => exact le_refl 0
  | some tx =>
    apply length_filter_mono
    intro v _ hv
    cases hvt : v.txid with
    | none => rw [hvt] at hv; simp at hv
    | some p =>
      rw [hvt] at hv
      simp only [Bool.and_eq_true, decide_eq_true_eq] at hv ⊢
      refine ⟨hv.1, fun hc => hv.2 ?_⟩
      rw [contains_true_iff] at hc ⊢
      exact h _ hc

theorem contains_eq_decide (l : List String) (a : String) :
    l.contains a = decide (a ∈ l) :=
  List.elem_eq_mem a l

theorem remainingCount_snoc (m : TxMap) (done : List String) (t r : String)
    (htd : t ∉ done) (htm : (lookupRec m t).isSome) :
    remainingCount m done r = remainingCount m (done ++ [t]) r + vinRefCount m r t := by
  unfold remainingCount vinRefCount
  cases hl : lookupRec m r with
  | none => rfl
  | some tx =>
    apply length_filter_split
    · intro v _
      cases hvt : v.txid with
      | none => simp
      | some p =>
        by_cases hpt : p = t
        · subst hpt
          simp [contains_eq_decide, htm, htd]
        · by_cases hpd : p ∈ done
          · simp [contains_eq_decide, hpd, hpt]
          · simp [contains_eq_decide, hpd, hpt]
    · intro v _ hq
      cases hvt : v.txid with
      | none => rw [hvt] at hq; simp at hq
      | some p =>
        rw [hvt] at hq
        simp only [Bool.and_eq_true, decide_eq_true_eq] at hq
        have hpt : p ≠ t := by
          intro hh
          subst hh
          apply hq.2
          rw [contains_eq_decide]
          simp
        simp [hpt]

theorem remainingCount_zero_pred (m : TxMap) (done : List String) (t p : String)
    (h : remainingCount m done t = 0) (hsp : spendsInto m p t = true) : p ∈ done := by
  unfold spendsInto at hsp
  cases hl : lookupRec m t with
  | none => rw [hl] at hsp; cases hsp
  | some tx =>
    rw [hl] at hsp
    simp only [Bool.and_eq_true, List.any_eq_true, decide_eq_true_eq] at hsp
    obtain ⟨hpm, v, hv, hvp⟩ := hsp
    unfold remainingCount at h
    rw [hl] at h
    rw [List.length_eq_zero] at h
    have hvn : v ∉ tx.data.vin.filter (fun v =>
        match v.txid with
        | some q => (lookupRec m q).isSome && ¬ (done.contains q)
        | none => false) := by
      rw [h]
      exact List.not_mem_nil v
    by_contra hpd
    apply hvn
    rw [List.mem_filter]
    refine ⟨hv, ?_⟩
    rw [hvp]
    simp only [Bool.and_eq_true]
    refine ⟨hpm, ?_⟩
    rw [contains_eq_decide]
    simp [hpd]

theorem remainingCount_pos_pred (m : TxMap) (done : List String) (t : String)
    (h : 0 < remainingCount m done t) :
    ∃ p, spendsInto m p t = true ∧ p ∉ done := by
  unfold remainingCount at h
  cases hl : lookupRec m t with
  | none => rw [hl] at h; cases h
  | some tx =>
    rw [hl] at h
    rw [List.length_pos] at h
    obtain ⟨v, hv⟩ := List.exists_mem_of_ne_nil _ h
    rw [List.mem_filter] at hv
    obtain ⟨hvm, hvc⟩ := hv
    cases hvt : v.txid with
    | none => rw [hvt] at hvc; simp at hvc
    | some p =>
      rw [hvt] at hvc
      simp only [Bool.and_eq_true, decide_eq_true_eq] at hvc
      refine ⟨p, ?_, ?_⟩
      · unfold spendsInto
        rw [hl]
        simp only [Bool.and_eq_true, List.any_eq_true, decide_eq_true_eq]
        exact ⟨hvc.1, v, hvm, hvt⟩
      · intro hpd
        apply hvc.2
        rw [contains_eq_decide]
        simp [hpd]

theorem vinRef_le_remaining (m : TxMap) (done : List String) (t r : String)
    (htd : t ∉ done) (htm : (lookupRec m t).isSome) :
    vinRefCount m r t ≤ remainingCount m done r := by
  unfold vinRefCount remainingCount
  cases hl : lookupRec m r with
  | none => exact le_refl 0
  | some tx =>
    apply length_filter_mono
    intro v _ hv
    simp only [decide_eq_true_eq] at hv
    rw [hv]
    simp [contains_eq_decide, htm, htd]

theorem effCount_eq_outspendCount (m : TxMap) (t : String) (tx : StoredTransaction)
    (hl : lookupRec m t = some tx) (r : String) (hr : (lookupRec m r).isSome) :
    effCount m tx.outspends r = outspendCount m t r := by
  unfold effCount outspendCount
  rw [hl]
  congr 1
  apply List.filter_congr
  intro o _
  simp [hr]

/-! ## Sub-index value lemmas -/

theorem foldl_max_init_le_w (l : List (WithBot Int)) (a : WithBot Int) :
    a ≤ l.foldl max a := by
  induction l generalizing a with
  | nil => exact le_refl a
  | cons x xs ih => exact le_trans (le_max_left a x) (ih (max a x))

theorem le_foldl_max_w (l : List (WithBot Int)) (a x : WithBot Int) (hx : x ∈ l) :
    x ≤ l.foldl max a := by
  induction l generalizing a with
  | nil => cases hx
  | cons y ys ih =>
    rcases List.mem_cons.mp hx with h | h
    · subst h
      exact le_trans (le_max_right a x) (foldl_max_init_le_w ys (max a x))
    · exact ih (max a y) h

theorem jsMax_mem_le (l : List (WithBot Int)) (x : WithBot Int) (hx : x ∈ l) :
    x ≤ jsMax l :=
  le_foldl_max_w l ⊥ x hx

theorem jsOrZero_nonneg (subs : List (String × WithBot Int))
    (hvge : ∀ e ∈ subs, (1 : WithBot Int) ≤ e.2) (o : Option String) :
    (0 : WithBot Int) ≤ jsOrZero (o.bind (fun t => lookupRec subs t)) := by
  cases o with
  | none => exact le_refl 0
  | some t =>
    show (0 : WithBot Int) ≤ jsOrZero (lookupRec subs t)
    cases hl : lookupRec subs t with
    | none => exact le_refl 0
    | some v =>
      have hmem := mem_of_lookupRec_eq_some subs t v hl
      have hv1 : (1 : WithBot Int) ≤ v := hvge (t, v) hmem
      show (0 : WithBot Int) ≤ (if v = 0 then 0 else v)
      by_cases hv0 : v = 0
      · rw [if_pos hv0]
      · rw [if_neg hv0]
        exact le_trans (by decide) hv1

theorem jsOrZero_of_ge1 (v : WithBot Int) (hv : (1 : WithBot Int) ≤ v) :
    jsOrZero (some v) = v := by
  show (if v = 0 then 0 else v) = v
  rw [if_neg]
  intro hv0
  rw [hv0] at hv
  exact absurd hv (by decide)

theorem newSubIndex_ge1 (subs : List (String × WithBot Int)) (tx : StoredTransaction)
    (hvge : ∀ e ∈ subs, (1 : WithBot Int) ≤ e.2) (hne : tx.data.vin ≠ []) :
    (1 : WithBot Int) ≤ newSubIndex subs tx := by
  unfold newSubIndex
  have h0 : (0 : WithBot Int) ≤ jsMax (tx.data.vin.map
      (fun v => jsOrZero (v.txid.bind (fun t => lookupRec subs t)))) := by
    cases hv : tx.data.vin with
    | nil => exact absurd hv hne
    | cons v rest =>
      refine le_trans (jsOrZero_nonneg subs hvge v.txid) (jsMax_mem_le _ _ ?_)
      simp
  calc (1 : WithBot Int) = 0 + 1 := by decide
    _ ≤ _ := add_le_add_right h0 1

theorem newSubIndex_ge_pred (subs : List (String × WithBot Int)) (tx : StoredTransaction)
    (p : String) (vp : WithBot Int) (hp : lookupRec subs p = some vp)
    (hvp : (1 : WithBot Int) ≤ vp)
    (hvin : ∃ v ∈ tx.data.vin, v.txid = some p) :
    vp + 1 ≤ newSubIndex subs tx := by
  unfold newSubIndex
  obtain ⟨v, hv, hvt⟩ := hvin
  have hmem : vp ∈ tx.data.vin.map
      (fun v => jsOrZero (v.txid.bind (fun t => lookupRec subs t))) := by
    rw [List.mem_map]
    refine ⟨v, hv, ?_⟩
    show jsOrZero (v.txid.bind (fun t => lookupRec subs t)) = vp
    rw [hvt]
    show jsOrZero (lookupRec subs p) = vp
    rw [hp]
    exact jsOrZero_of_ge1 vp hvp
  exact add_le_add_right (jsMax_mem_le _ vp hmem) 1

/-! ## Step-shape lemmas for the inner outspend loop -/

theorem applyOutspend_of_not_spent (m : TxMap) (st : List String × List (String × Int))
    (o : MempoolOutspend) (h : o.spent = false) : applyOutspend m st o = st := by
  unfold applyOutspend
  rw [h]
  simp

theorem applyOutspend_of_none (m : TxMap) (st : List String × List (String × Int))
    (o : MempoolOutspend) (h : o.txid = none) : applyOutspend m st o = st := by
  unfold applyOutspend
  rw [h]
  split
  · rfl
  · rfl

theorem applyOutspend_of_not_mem (m : TxMap) (st : List String × List (String × Int))
    (o : MempoolOutspend) (r0 : String) (ht : o.txid = some r0)
    (hm : (lookupRec m r0).isNone = true) : applyOutspend m st o = st := by
  unfold applyOutspend
  rw [ht]
  split
  · rfl
  · simp only [hm, if_pos]

theorem applyOutspend_of_not_il (m : TxMap) (st : List String × List (String × Int))
    (o : MempoolOutspend) (r0 : String) (ht : o.txid = some r0)
    (hil : lookupRec st.2 r0 = none) : applyOutspend m st o = st := by
  cases hspv : o.spent with
  | false => exact applyOutspend_of_not_spent m st o hspv
  | true =>
    unfold applyOutspend
    rw [hspv, ht]
    show (if (lookupRec m r0).isNone = true then st
      else
        let newLeft : Int := ((lookupRec st.2 r0).getD 0) - 1
        if newLeft < 0 then st
        else if newLeft = 0 then (st.1 ++ [r0], eraseRec st.2 r0)
        else (st.1, insertRec st.2 r0 newLeft)) = st
    rw [hil]
    by_cases hm : (lookupRec m r0).isNone = true
    · simp [hm]
    · simp [hm]

theorem applyOutspend_push (m : TxMap) (st : List String × List (String × Int))
    (o : MempoolOutspend) (r0 : String) (hsp : o.spent = true) (ht : o.txid = some r0)
    (hm : (lookupRec m r0).isNone = false) (hil : lookupRec st.2 r0 = some 1) :
    applyOutspend m st o = (st.1 ++ [r0], eraseRec st.2 r0) := by
  unfold applyOutspend
  rw [hsp, ht]
  show (if (lookupRec m r0).isNone = true then st
    else
      let newLeft : Int := ((lookupRec st.2 r0).getD 0) - 1
      if newLeft < 0 then st
      else if newLeft = 0 then (st.1 ++ [r0], eraseRec st.2 r0)
      else (st.1, insertRec st.2 r0 newLeft)) = (st.1 ++ [r0], eraseRec st.2 r0)
  rw [hil]
  simp [hm]

theorem applyOutspend_dec (m : TxMap) (st : List String × List (String × Int))
    (o : MempoolOutspend) (r0 : String) (n : Int) (hsp : o.spent = true)
    (ht : o.txid = some r0) (hm : (lookupRec m r0).isNone = false)
    (hil : lookupRec st.2 r0 = some n) (hn : 1 < n) :
    applyOutspend m st o = (st.1, insertRec st.2 r0 (n - 1)) := by
  unfold applyOutspend
  rw [hsp, ht]
  show (if (lookupRec m r0).isNone = true then st
    else
      let newLeft : Int := ((lookupRec st.2 r0).getD 0) - 1
      if newLeft < 0 then st
      else if newLeft = 0 then (st.1 ++ [r0], eraseRec st.2 r0)
      else (st.1, insertRec st.2 r0 newLeft)) = (st.1, insertRec st.2 r0 (n - 1))
  rw [hil]
  simp only [Option.getD_some]
  rw [if_neg (by rw [hm]; exact Bool.false_ne_true)]
  rw [if_neg (by omega), if_neg (by omega)]

theorem effCount_cons_ne (m : TxMap) (o : MempoolOutspend) (os : List MempoolOutspend)
    (r : String) (h : ¬ (o.spent = true ∧ o.txid = some r)) :
    effCount m (o :: os) r = effCount m os r := by
  unfold effCount
  rw [List.filter_cons_of_neg]
  intro hc
  simp only [Bool.and_eq_true, decide_eq_true_eq] at hc
  exact h ⟨hc.1.1, hc.1.2⟩

theorem effCount_cons_pos (m : TxMap) (o : MempoolOutspend) (os : List MempoolOutspend)
    (r : String) (h1 : o.spent = true) (h2 : o.txid = some r)
    (h3 : (lookupRec m r).isSome = true) :
    effCount m (o :: os) r = effCount m os r + 1 := by
  unfold effCount
  rw [List.filter_cons_of_pos]
  · rfl
  · simp [h1, h2, h3]

theorem effCount_cons_not_mem (m : TxMap) (o : MempoolOutspend)
    (os : List MempoolOutspend) (r : String) (h3 : (lookupRec m r).isSome = false) :
    effCount m (o :: os) r = effCount m os r := by
  unfold effCount
  rw [List.filter_cons_of_neg]
  intro hc
  simp only [Bool.and_eq_true] at hc
  rw [h3] at hc
  exact Bool.false_ne_true hc.2

theorem mem_keys_of_lookup_some {α : Type} {l : List (String × α)} {r : String} {v : α}
    (h : lookupRec l r = some v) : r ∈ keysRec l :=
  (lookupRec_isSome_iff l r).mp (by simp [h])

theorem lookup_some_of_mem_keys {α : Type} {l : List (String × α)} {r : String}
    (h : r ∈ keysRec l) : ∃ v, lookupRec l r = some v := by
  have := (lookupRec_isSome_iff l r).mpr h
  cases hl : lookupRec l r with
  | none => rw [hl] at this; cases this
  | some v => exact ⟨v, rfl⟩

theorem not_mem_keys_of_lookup_none {α : Type} {l : List (String × α)} {r : String}
    (h : lookupRec l r = none) : r ∉ keysRec l := by
  intro hmem
  obtain ⟨v, hv⟩ := lookup_some_of_mem_keys hmem
  rw [h] at hv
  cases hv

theorem foldl_applyOutspend_spec (m : TxMap) (os : List MempoolOutspend) :
    ∀ (q0 : List String) (il0 : List (String × Int)) (c : String → Nat),
    (keysRec il0).Nodup → q0.Nodup →
    (∀ r ∈ keysRec il0, r ∉ q0) →
    (∀ r ∈ keysRec il0, lookupRec il0 r = some ((c r : Nat) : Int) ∧ 0 < c r) →
    (∀ r ∈ keysRec il0, effCount m os r ≤ c r) →
    (keysRec (os.foldl (applyOutspend m) (q0, il0)).2).Nodup ∧
    (∀ r ∈ keysRec (os.foldl (applyOutspend m) (q0, il0)).2, r ∈ keysRec il0) ∧
    (∀ r ∈ keysRec il0,
      (effCount m os r < c r →
        lookupRec (os.foldl (applyOutspend m) (q0, il0)).2 r
          = some ((c r - effCount m os r : Nat) : Int) ∧
        ((r ∈ (os.foldl (applyOutspend m) (q0, il0)).1) ↔ r ∈ q0)) ∧
      (effCount m os r = c r →
        r ∉ keysRec (os.foldl (applyOutspend m) (q0, il0)).2 ∧
        r ∈ (os.foldl (applyOutspend m) (q0, il0)).1)) ∧
    (∀ r, r ∉ keysRec il0 →
      r ∉ keysRec (os.foldl (applyOutspend m) (q0, il0)).2 ∧
      ((r ∈ (os.foldl (applyOutspend m) (q0, il0)).1) ↔ r ∈ q0)) ∧
    (os.foldl (applyOutspend m) (q0, il0)).1.Nodup ∧
    (∀ r ∈ (os.foldl (applyOutspend m) (q0, il0)).1, r ∈ q0 ∨ r ∈ keysRec il0) := by
  induction os with
  | nil =>
    intro q0 il0 c hilnd hq0nd hdisj hval heff
    simp only [List.foldl_nil]
    refine ⟨hilnd, fun r hr => hr, ?_, ?_, hq0nd, fun r hr => Or.inl hr⟩
    · intro r hr
      have he : effCount m [] r = 0 := rfl
      rw [he]
      constructor
      · intro _
        rw [Nat.sub_zero]
        exact ⟨(hval r hr).1, trivial⟩
      · intro h0
        exact absurd (hval r hr).2 (by omega)
    · intro r hr
      exact ⟨hr, trivial⟩
  | cons o os' ih =>
    intro q0 il0 c hilnd hq0nd hdisj hval heff
    rw [List.foldl_cons]
    by_cases hsp : o.spent = true
    case neg =>
      have hspf : o.spent = false := by
        revert hsp
        cases o.spent <;> simp
      have hstep : applyOutspend m (q0, il0) o = (q0, il0) :=
        applyOutspend_of_not_spent m _ o hspf
      have heq : ∀ r, effCount m (o :: os') r = effCount m os' r := fun r =>
        effCount_cons_ne m o os' r (fun hc => hsp hc.1)
      rw [hstep]
      obtain ⟨A, B, C, D, E, F⟩ := ih q0 il0 c hilnd hq0nd hdisj hval
        (fun r hr => le_trans (le_of_eq (heq r).symm) (heff r hr))
      refine ⟨A, B, ?_, D, E, F⟩
      intro r hr
      rw [heq r]
      exact C r hr
    case pos =>
      cases hto : o.txid with
      | none =>
        have hstep : applyOutspend m (q0, il0) o = (q0, il0) :=
          applyOutspend_of_none m _ o hto
        have heq : ∀ r, effCount m (o :: os') r = effCount m os' r := fun r =>
          effCount_cons_ne m o os' r (fun hc => by
            rw [hto] at hc
            cases hc.2)
        rw [hstep]
        obtain ⟨A, B, C, D, E, F⟩ := ih q0 il0 c hilnd hq0nd hdisj hval
          (fun r hr => le_trans (le_of_eq (heq r).symm) (heff r hr))
        refine ⟨A, B, ?_, D, E, F⟩
        intro r hr
        rw [heq r]
        exact C r hr
      | some r0 =>
        by_cases hrm : (lookupRec m r0).isNone = true
        · have hstep : applyOutspend m (q0, il0) o = (q0, il0) :=
            applyOutspend_of_not_mem m _ o r0 hto hrm
          have heq : ∀ r, effCount m (o :: os') r = effCount m os' r := by
            intro r
            by_cases hrr : r = r0
            · subst hrr
              apply effCount_cons_not_mem m o os' r
              revert hrm
              cases lookupRec m r <;> simp
            · exact effCount_cons_ne m o os' r (fun hc => by
                rw [hto] at hc
                exact hrr (by injection hc.2 with h2; exact h2.symm))
          rw [hstep]
          obtain ⟨A, B, C, D, E, F⟩ := ih q0 il0 c hilnd hq0nd hdisj hval
            (fun r hr => le_trans (le_of_eq (heq r).symm) (heff r hr))
          refine ⟨A, B, ?_, D, E, F⟩
          intro r hr
          rw [heq r]
          exact C r hr
        · have hrmf : (lookupRec m r0).isNone = false := by
            revert hrm
            cases lookupRec m r0 <;> simp
          have hrs : (lookupRec m r0).isSome = true := by
            revert hrmf
            cases lookupRec m r0 <;> simp
          have heqne : ∀ r, r ≠ r0 → effCount m (o :: os') r = effCount m os' r := by
            intro r hrr
            exact effCount_cons_ne m o os' r (fun hc => by
              rw [hto] at hc
              exact hrr (by injection hc.2 with h2; exact h2.symm))
          have heq0 : effCount m (o :: os') r0 = effCount m os' r0 + 1 :=
            effCount_cons_pos m o os' r0 hsp hto hrs
          by_cases hr0il : r0 ∈ keysRec il0
          · obtain ⟨hl0, hc0⟩ := hval r0 hr0il
            by_cases hc1 : c r0 = 1
            · -- push: the pending count of r0 reaches zero
              have hstep : applyOutspend m (q0, il0) o
                  = (q0 ++ [r0], eraseRec il0 r0) :=
                applyOutspend_push m _ o r0 hsp hto hrmf
                  (by rw [hl0, hc1]; rfl)
              rw [hstep]
              have hr0q : r0 ∉ q0 := hdisj r0 hr0il
              have hilnd1 : (keysRec (eraseRec il0 r0)).Nodup :=
                eraseRec_keys_nodup il0 r0 hilnd
              have hq1nd : (q0 ++ [r0]).Nodup := by
                rw [List.nodup_append]
                exact ⟨hq0nd, List.nodup_singleton r0,
                  fun a ha => by simp; intro hh; subst hh; exact hr0q ha⟩
              have hkeys1 : ∀ r, r ∈ keysRec (eraseRec il0 r0) ↔ (r ∈ keysRec il0 ∧ r ≠ r0) := by
                intro r
                constructor
                · intro hmem
                  refine ⟨eraseRec_keys_sub il0 r0 r hmem, ?_⟩
                  intro hh
                  subst hh
                  exact absurd ((lookupRec_isSome_iff _ r).mpr hmem)
                    (by rw [lookupRec_eraseRec_self il0 r hilnd]; simp)
                · intro ⟨hmem, hne⟩
                  obtain ⟨v, hv⟩ := lookup_some_of_mem_keys hmem
                  exact mem_keys_of_lookup_some
                    (by rw [lookupRec_eraseRec_ne il0 r0 r hne]; exact hv)
              have hdisj1 : ∀ r ∈ keysRec (eraseRec il0 r0), r ∉ q0 ++ [r0] := by
                intro r hr
                obtain ⟨hmem, hne⟩ := (hkeys1 r).mp hr
                simp only [List.mem_append, List.mem_singleton]
                push_neg
                exact ⟨hdisj r hmem, hne⟩
              have hval1 : ∀ r ∈ keysRec (eraseRec il0 r0),
                  lookupRec (eraseRec il0 r0) r = some ((c r : Nat) : Int) ∧ 0 < c r := by
                intro r hr
                obtain ⟨hmem, hne⟩ := (hkeys1 r).mp hr
                rw [lookupRec_eraseRec_ne il0 r0 r hne]
                exact hval r hmem
              have heff1 : ∀ r ∈ keysRec (eraseRec il0 r0), effCount m os' r ≤ c r := by
                intro r hr
                obtain ⟨hmem, hne⟩ := (hkeys1 r).mp hr
                rw [← heqne r hne]
                exact heff r hmem
              obtain ⟨A, B, C, D, E, F⟩ := ih (q0 ++ [r0]) (eraseRec il0 r0) c
                hilnd1 hq1nd hdisj1 hval1 heff1
              have hr0il1 : r0 ∉ keysRec (eraseRec il0 r0) := by
                intro hh
                exact ((hkeys1 r0).mp hh).2 rfl
              refine ⟨A, ?_, ?_, ?_, E, ?_⟩
              · intro r hr
                exact ((hkeys1 r).mp (B r hr)).1
              · intro r hr
                by_cases hrr : r = r0
                · subst hrr
                  constructor
                  · intro hlt
                    exfalso
                    rw [heq0, hc1] at hlt
                    omega
                  · intro _
                    obtain ⟨D1, D2⟩ := D r hr0il1
                    refine ⟨D1, D2.mpr (by simp)⟩
                · have hmem1 : r ∈ keysRec (eraseRec il0 r0) := (hkeys1 r).mpr ⟨hr, hrr⟩
                  obtain ⟨C1, C2⟩ := C r hmem1
                  rw [heqne r hrr]
                  constructor
                  · intro hlt
                    obtain ⟨Ca, Cb⟩ := C1 hlt
                    refine ⟨Ca, ?_⟩
                    rw [Cb]
                    simp only [List.mem_append, List.mem_singleton]
                    constructor
                    · intro hh
                      rcases hh with hh | hh
                      · exact hh
                      · exact absurd hh hrr
                    · exact Or.inl
                  · intro heq2
                    obtain ⟨Ca, Cb⟩ := C2 heq2
                    exact ⟨Ca, Cb⟩
              · intro r hr
                by_cases hrr : r = r0
                · subst hrr
                  exact absurd hr0il hr
                · have hmem1 : r ∉ keysRec (eraseRec il0 r0) := by
                    intro hh
                    exact hr ((hkeys1 r).mp hh).1
                  obtain ⟨D1, D2⟩ := D r hmem1
                  refine ⟨D1, ?_⟩
                  rw [D2]
                  simp only [List.mem_append, List.mem_singleton]
                  constructor
                  · intro hh
                    rcases hh with hh | hh
                    · exact hh
                    · exact absurd hh hrr
                  · exact Or.inl
              · intro r hr
                rcases F r hr with h | h
                · rcases List.mem_append.mp h with h2 | h2
                  · exact Or.inl h2
                  · rw [List.mem_singleton] at h2
                    subst h2
                    exact Or.inr hr0il
                · exact Or.inr (((hkeys1 r).mp h).1)
            · -- decrement: the pending count of r0 stays positive
              have hstep : applyOutspend m (q0, il0) o
                  = (q0, insertRec il0 r0 ((c r0 : Int) - 1)) :=
                applyOutspend_dec m _ o r0 (c r0 : Int) hsp hto hrmf hl0
                  (by exact_mod_cast by omega)
              rw [hstep]
              have hkeys1 : keysRec (insertRec il0 r0 ((c r0 : Int) - 1)) = keysRec il0 := by
                rw [insertRec_keys]
                rw [if_pos hr0il]
              have hilnd1 : (keysRec (insertRec il0 r0 ((c r0 : Int) - 1))).Nodup := by
                rw [hkeys1]
                exact hilnd
              have hdisj1 : ∀ r ∈ keysRec (insertRec il0 r0 ((c r0 : Int) - 1)), r ∉ q0 := by
                rw [hkeys1]
                exact hdisj
              have hcast : ((c r0 : Int) - 1) = ((c r0 - 1 : Nat) : Int) := by
                omega
              have hval1 : ∀ r ∈ keysRec (insertRec il0 r0 ((c r0 : Int) - 1)),
                  lookupRec (insertRec il0 r0 ((c r0 : Int) - 1)) r
                    = some ((Function.update c r0 (c r0 - 1) r : Nat) : Int) ∧
                  0 < Function.update c r0 (c r0 - 1) r := by
                rw [hkeys1]
                intro r hr
                by_cases hrr : r = r0
                · subst hrr
                  rw [lookupRec_insertRec_self, Function.update_same, hcast]
                  exact ⟨rfl, by omega⟩
                · rw [lookupRec_insertRec_ne il0 r0 r _ hrr, Function.update_noteq hrr]
                  exact hval r hr
              have heff1 : ∀ r ∈ keysRec (insertRec il0 r0 ((c r0 : Int) - 1)),
                  effCount m os' r ≤ Function.update c r0 (c r0 - 1) r := by
                rw [hkeys1]
                intro r hr
                by_cases hrr : r = r0
                · subst hrr
                  rw [Function.update_same]
                  have := heff r hr
                  rw [heq0] at this
                  omega
                · rw [Function.update_noteq hrr, ← heqne r hrr]
                  exact heff r hr
              obtain ⟨A, B, C, D, E, F⟩ := ih q0 (insertRec il0 r0 ((c r0 : Int) - 1))
                (Function.update c r0 (c r0 - 1)) hilnd1 hq0nd hdisj1 hval1 heff1
              rw [hkeys1] at B C D F
              refine ⟨A, B, ?_, D, E, F⟩
              intro r hr
              by_cases hrr : r = r0
              · subst hrr
                obtain ⟨C1, C2⟩ := C r hr
                rw [Function.update_same] at C1 C2
                rw [heq0]
                constructor
                · intro hlt
                  obtain ⟨Ca, Cb⟩ := C1 (by omega)
                  refine ⟨?_, Cb⟩
                  rw [Ca]
                  congr 1
                  congr 1
                  omega
                · intro heq2
                  exact C2 (by omega)
              · obtain ⟨C1, C2⟩ := C r hr
                rw [Function.update_noteq hrr] at C1 C2
                rw [heqne r hrr]
                exact ⟨C1, C2⟩
          · -- r0 is tracked by neither queue nor pending map
            have hil0 : lookupRec il0 r0 = none := by
              cases hl : lookupRec il0 r0 with
              | none => rfl
              | some v => exact absurd (mem_keys_of_lookup_some hl) hr0il
            have hstep : applyOutspend m (q0, il0) o = (q0, il0) :=
              applyOutspend_of_not_il m _ o r0 hto hil0
            rw [hstep]
            obtain ⟨A, B, C, D, E, F⟩ := ih q0 il0 c hilnd hq0nd hdisj hval
              (fun r hr => by
                rw [← heqne r (fun hh => hr0il (hh ▸ hr))]
                exact heff r hr)
            refine ⟨A, B, ?_, D, E, F⟩
            intro r hr
            rw [heqne r (fun hh => hr0il (hh ▸ hr))]
            exact C r hr

theorem initSI_fold_spec (m : TxMap) (l : List (String × StoredTransaction)) (acc : SIState) :
    l.foldl (fun st e =>
      if inSetVinCount m e.2 = 0 then { st with workQueue := st.workQueue ++ [e.1] }
      else { st with inputsLeft :=
        st.inputsLeft ++ [(e.1, (inSetVinCount m e.2 : Int))] }) acc
    = ⟨acc.subIndexes,
       acc.workQueue ++ (l.filter (fun e => inSetVinCount m e.2 = 0)).map Prod.fst,
       acc.inputsLeft ++ (l.filter (fun e => ¬ inSetVinCount m e.2 = 0)).map
         (fun e => (e.1, (inSetVinCount m e.2 : Int)))⟩ := by
  induction l generalizing acc with
  | nil =>
    cases acc
    simp
  | cons e rest ihl =>
    rw [List.foldl_cons]
    by_cases hc : inSetVinCount m e.2 = 0
    · rw [if_pos hc, ihl]
      rw [List.filter_cons_of_pos (by simp [hc]), List.filter_cons_of_neg (by simp [hc])]
      simp
    · rw [if_neg hc, ihl]
      rw [List.filter_cons_of_neg (by simp [hc]), List.filter_cons_of_pos (by simp [hc])]
      simp

theorem initSI_spec (m : TxMap) :
    initSI m = ⟨[],
      (m.filter (fun e => inSetVinCount m e.2 = 0)).map Prod.fst,
      (m.filter (fun e => ¬ inSetVinCount m e.2 = 0)).map
        (fun e => (e.1, (inSetVinCount m e.2 : Int)))⟩ := by
  unfold initSI
  rw [initSI_fold_spec]
  simp

theorem remainingCount_nil (m : TxMap) (t : String) (tx : StoredTransaction)
    (hl : lookupRec m t = some tx) :
    remainingCount m [] t = inSetVinCount m tx := by
  unfold remainingCount inSetVinCount
  simp only [hl]
  congr 1
  apply List.filter_congr
  intro v _
  cases hvt : v.txid <;> simp

theorem SIInv_init (m : TxMap) (hnd : (keysRec m).Nodup) : SIInv m (initSI m) := by
  rw [initSI_spec]
  have hQmem : ∀ t, t ∈ keysRec ((⟨[],
        (m.filter (fun e => inSetVinCount m e.2 = 0)).map Prod.fst,
        (m.filter (fun e => ¬ inSetVinCount m e.2 = 0)).map
          (fun e => (e.1, (inSetVinCount m e.2 : Int)))⟩ : SIState)).subIndexes → False := by
    intro t ht
    simp [keysRec] at ht
  have hQspec : ∀ t, t ∈ (m.filter (fun e => inSetVinCount m e.2 = 0)).map Prod.fst →
      ∃ e ∈ m, e.1 = t ∧ inSetVinCount m e.2 = 0 := by
    intro t ht
    obtain ⟨e, he, het⟩ := List.mem_map.mp ht
    exact ⟨e, List.mem_of_mem_filter he, het, by simpa using List.of_mem_filter he⟩
  have hILkeys : keysRec ((m.filter (fun e => ¬ inSetVinCount m e.2 = 0)).map
      (fun e => (e.1, (inSetVinCount m e.2 : Int))))
      = (m.filter (fun e => ¬ inSetVinCount m e.2 = 0)).map Prod.fst := by
    unfold keysRec
    rw [List.map_map]
    rfl
  have hILspec : ∀ t, t ∈ (m.filter (fun e => ¬ inSetVinCount m e.2 = 0)).map Prod.fst →
      ∃ e ∈ m, e.1 = t ∧ ¬ inSetVinCount m e.2 = 0 := by
    intro t ht
    obtain ⟨e, he, het⟩ := List.mem_map.mp ht
    exact ⟨e, List.mem_of_mem_filter he, het, by simpa using List.of_mem_filter he⟩
  have hQnd : ((m.filter (fun e => inSetVinCount m e.2 = 0)).map Prod.fst).Nodup := by
    have hsub := (List.filter_sublist
      (p := fun e => decide (inSetVinCount m e.2 = 0)) m).map Prod.fst
    exact hnd.sublist hsub
  have hILnd : ((m.filter (fun e => ¬ inSetVinCount m e.2 = 0)).map Prod.fst).Nodup := by
    have hsub := (List.filter_sublist
      (p := fun e => decide (¬ inSetVinCount m e.2 = 0)) m).map Prod.fst
    exact hnd.sublist hsub
  have hdisj : ∀ t, t ∈ (m.filter (fun e => inSetVinCount m e.2 = 0)).map Prod.fst →
      t ∈ (m.filter (fun e => ¬ inSetVinCount m e.2 = 0)).map Prod.fst → False := by
    intro t htq htl
    obtain ⟨e, hem, het, hez⟩ := hQspec t htq
    obtain ⟨e', hem', het', hez'⟩ := hILspec t htl
    have h1 := lookupRec_of_mem_nodup m e hem hnd
    have h2 := lookupRec_of_mem_nodup m e' hem' hnd
    rw [het] at h1
    rw [het'] at h2
    rw [h1] at h2
    have : e.2 = e'.2 := by injection h2
    rw [this] at hez
    exact hez' hez
  refine ⟨hQnd, ?_, ?_, ?_, ?_, ?_, ?_, ?_, ?_, ?_, ?_, ?_, ?_, ?_, ?_⟩
  · simp [keysRec]
  · rw [hILkeys]; exact hILnd
  · intro t ht
    obtain ⟨e, hem, het, _⟩ := hQspec t ht
    exact het ▸ List.mem_map.mpr ⟨e, hem, rfl⟩
  · intro t ht
    exact absurd ht (hQmem t)
  · intro t ht
    rw [hILkeys] at ht
    obtain ⟨e, hem, het, _⟩ := hILspec t ht
    exact het ▸ List.mem_map.mpr ⟨e, hem, rfl⟩
  · intro t _ ht
    exact hQmem t ht
  · intro t htq htl
    rw [hILkeys] at htl
    exact hdisj t htq htl
  · intro t ht
    exact absurd ht (hQmem t)
  · intro t ht
    obtain ⟨e, hem, het⟩ := List.mem_map.mp ht
    by_cases hz : inSetVinCount m e.2 = 0
    · refine Or.inr (Or.inl ?_)
      exact het ▸ List.mem_map.mpr ⟨e, List.mem_filter.mpr ⟨hem, by simpa using hz⟩, rfl⟩
    · refine Or.inr (Or.inr ?_)
      rw [hILkeys]
      exact het ▸ List.mem_map.mpr ⟨e, List.mem_filter.mpr ⟨hem, by simpa using hz⟩, rfl⟩
  · intro t ht
    obtain ⟨e, hem, het, hez⟩ := hQspec t ht
    have h1 := lookupRec_of_mem_nodup m e hem hnd
    rw [het] at h1
    rw [show keysRec ([] : List (String × WithBot Int)) = [] from rfl,
      remainingCount_nil m t e.2 h1]
    exact hez
  · intro t ht
    exact absurd ht (hQmem t)
  · intro t ht
    rw [hILkeys] at ht
    obtain ⟨e, hem, het, hez⟩ := hILspec t ht
    obtain ⟨e', hef, het'⟩ := List.mem_map.mp ht
    have h1 := lookupRec_of_mem_nodup m e hem hnd
    rw [het] at h1
    have hrc : remainingCount m (keysRec ([] : List (String × WithBot Int))) t
        = inSetVinCount m e.2 := by
      rw [show keysRec ([] : List (String × WithBot Int)) = [] from rfl]
      exact remainingCount_nil m t e.2 h1
    constructor
    · have hentry : (e.1, (inSetVinCount m e.2 : Int)) ∈
          (m.filter (fun e => ¬ inSetVinCount m e.2 = 0)).map
            (fun e => (e.1, (inSetVinCount m e.2 : Int))) := by
        refine List.mem_map.mpr ⟨e, List.mem_filter.mpr ⟨hem, by simpa using hez⟩, rfl⟩
      have h2 := lookupRec_of_mem_nodup _ _ hentry (by rw [hILkeys]; exact hILnd)
      rw [het] at h2
      rw [h2, hrc]
    · rw [hrc]
      exact Nat.pos_of_ne_zero hez
  · intro e he
    simp at he
  · intro t ht
    exact absurd ht (hQmem t)

theorem spendsInto_vin (m : TxMap) (p t : String) (tx : StoredTransaction)
    (htx : lookupRec m t = some tx) (h : spendsInto m p t = true) :
    ∃ v ∈ tx.data.vin, v.txid = some p := by
  unfold spendsInto at h
  rw [htx] at h
  simp only [Bool.and_eq_true, List.any_eq_true, decide_eq_true_eq] at h
  exact h.2

theorem spendsInto_of_vin (m : TxMap) (p t : String) (tx : StoredTransaction)
    (htx : lookupRec m t = some tx) (hp : (lookupRec m p).isSome)
    (hv : ∃ v ∈ tx.data.vin, v.txid = some p) : spendsInto m p t = true := by
  unfold spendsInto
  rw [htx]
  simp only [Bool.and_eq_true, List.any_eq_true, decide_eq_true_eq]
  exact ⟨hp, hv⟩

theorem SIInv_step (m : TxMap) (st : SIState) (txid : String) (rest : List String)
    (tx : StoredTransaction)
    (hcons : ConsistentOutspends m)
    (hq : st.workQueue = txid :: rest)
    (htx : lookupRec m txid = some tx)
    (hvins : ∀ e ∈ m, e.2.data.vin ≠ [])
    (hinv : SIInv m st) :
    SIInv m ⟨insertRec st.subIndexes txid (newSubIndex st.subIndexes tx),
      (tx.outspends.foldl (applyOutspend m) (rest, st.inputsLeft)).1,
      (tx.outspends.foldl (applyOutspend m) (rest, st.inputsLeft)).2⟩ := by
  unfold SIInv at hinv
  obtain ⟨h1, h2, h3, h4, h5, h6, h7, h8, h9, h10, h11, h12, h13, h14, h15⟩ := hinv
  have hqmem : txid ∈ st.workQueue := by
    rw [hq]; exact List.mem_cons_self txid rest
  have hrestQ : ∀ t ∈ rest, t ∈ st.workQueue := by
    intro t ht; rw [hq]; exact List.mem_cons_of_mem _ ht
  have hrestnd : rest.Nodup := by
    have h := h1; rw [hq] at h; exact h.of_cons
  have htxnotrest : txid ∉ rest := by
    have h := h1; rw [hq] at h; exact (List.nodup_cons.mp h).1
  have h7txid : txid ∉ keysRec st.subIndexes := h7 txid hqmem
  have htxmem : txid ∈ keysRec m := mem_keys_of_lookup_some htx
  have htxsome : (lookupRec m txid).isSome := by rw [htx]; rfl
  have hdisj0 : ∀ r ∈ keysRec st.inputsLeft, r ∉ rest := by
    intro r hr hrrest
    exact h8 r (hrestQ r hrrest) hr
  have heffeq : ∀ r ∈ keysRec st.inputsLeft,
      effCount m tx.outspends r = vinRefCount m r txid := by
    intro r hr
    rw [effCount_eq_outspendCount m txid tx htx r
      ((lookupRec_isSome_iff m r).mpr (h6 r hr))]
    exact hcons txid htxmem r (h6 r hr)
  have heffle : ∀ r ∈ keysRec st.inputsLeft,
      effCount m tx.outspends r ≤ remainingCount m (keysRec st.subIndexes) r := by
    intro r hr
    rw [heffeq r hr]
    exact vinRef_le_remaining m (keysRec st.subIndexes) txid r h7txid htxsome
  obtain ⟨S1, S2, S3, S4, S5, S6⟩ := foldl_applyOutspend_spec m tx.outspends rest
    st.inputsLeft (remainingCount m (keysRec st.subIndexes)) h3 hrestnd hdisj0
    (fun r hr => h13 r hr) heffle
  have hdone' : keysRec (insertRec st.subIndexes txid (newSubIndex st.subIndexes tx))
      = keysRec st.subIndexes ++ [txid] := by
    rw [insertRec_keys, if_neg h7txid]
  have hsubdone : ∀ x ∈ keysRec st.subIndexes, x ∈ keysRec st.subIndexes ++ [txid] :=
    fun x hx => List.mem_append.mpr (Or.inl hx)
  have hsnoc : ∀ r, remainingCount m (keysRec st.subIndexes) r
      = remainingCount m (keysRec st.subIndexes ++ [txid]) r + vinRefCount m r txid :=
    fun r => remainingCount_snoc m (keysRec st.subIndexes) txid r h7txid htxsome
  have hvne : tx.data.vin ≠ [] :=
    hvins (txid, tx) (mem_of_lookupRec_eq_some m txid tx htx)
  unfold SIInv
  refine ⟨S5, ?_, S1, ?_, ?_, ?_, ?_, ?_, ?_, ?_, ?_, ?_, ?_, ?_, ?_⟩
  · exact insertRec_keys_nodup st.subIndexes txid _ h2
  · intro t ht
    rcases S6 t ht with h | h
    · exact h4 t (hrestQ t h)
    · exact h6 t h
  · intro t ht
    rw [hdone'] at ht
    rcases List.mem_append.mp ht with h | h
    · exact h5 t h
    · rw [List.mem_singleton.mp h]; exact htxmem
  · intro t ht
    exact h6 t (S2 t ht)
  · intro t ht htd
    rw [hdone'] at htd
    rcases S6 t ht with hr | hl
    · rcases List.mem_append.mp htd with hd | hd
      · exact h7 t (hrestQ t hr) hd
      · rw [List.mem_singleton.mp hd] at hr; exact htxnotrest hr
    · rcases List.mem_append.mp htd with hd | hd
      · exact h9 t hd hl
      · rw [List.mem_singleton.mp hd] at hl; exact h8 txid hqmem hl
  · intro t ht htl
    have htIL : t ∈ keysRec st.inputsLeft := S2 t htl
    have heb := heffle t htIL
    rcases lt_or_eq_of_le heb with hlt | heq
    · have := ((S3 t htIL).1 hlt).2.mp ht
      exact h8 t (hrestQ t this) htIL
    · exact ((S3 t htIL).2 heq).1 htl
  · intro t htd htl
    have htIL : t ∈ keysRec st.inputsLeft := S2 t htl
    rw [hdone'] at htd
    rcases List.mem_append.mp htd with hd | hd
    · exact h9 t hd htIL
    · rw [List.mem_singleton.mp hd] at htIL; exact h8 txid hqmem htIL
  · intro t htm
    rcases h10 t htm with hd | hQ | hl
    · exact Or.inl (by rw [hdone']; exact hsubdone t hd)
    · rw [hq] at hQ
      rcases List.mem_cons.mp hQ with he | hr
    
      · exact Or.inl (by rw [hdone', he]; exact List.mem_append.mpr (Or.inr (List.mem_singleton.mpr rfl)))
      · have htnotIL : t ∉ keysRec st.inputsLeft := h8 t (hrestQ t hr)
        exact Or.inr (Or.inl (((S4 t htnotIL).2).mpr hr))
    · have heb := heffle t hl
      rcases lt_or_eq_of_le heb with hlt | heq
      · refine Or.inr (Or.inr ?_)
        exact mem_keys_of_lookup_some ((S3 t hl).1 hlt).1
      · exact Or.inr (Or.inl ((S3 t hl).2 heq).2)
  · intro t ht
    rw [hdone']
    rcases S6 t ht with hr | hl
    · have h0 := h11 t (hrestQ t hr)
      have := remainingCount_mono_done m (keysRec st.subIndexes)
        (keysRec st.subIndexes ++ [txid]) t hsubdone
      omega
    · have heb := heffle t hl
      rcases lt_or_eq_of_le heb with hlt | heq
      · have := ((S3 t hl).1 hlt).2.mp ht
        exact absurd hl (h8 t (hrestQ t this))
      · have he2 := heffeq t hl
        have hs := hsnoc t
        omega
  · intro t ht
    rw [hdone'] at ht ⊢
    rcases List.mem_append.mp ht with hd | hd
    · have h0 := h12 t hd
      have := remainingCount_mono_done m (keysRec st.subIndexes)
        (keysRec st.subIndexes ++ [txid]) t hsubdone
      omega
    · rw [List.mem_singleton.mp hd]
      have h0 := h11 txid hqmem
      have := remainingCount_mono_done m (keysRec st.subIndexes)
        (keysRec st.subIndexes ++ [txid]) txid hsubdone
      omega
  · intro t ht
    have htIL : t ∈ keysRec st.inputsLeft := S2 t ht
    have heb := heffle t htIL
    rcases lt_or_eq_of_le heb with hlt | heq
    · have hlk := ((S3 t htIL).1 hlt).1
      have he2 := heffeq t htIL
      have hs := hsnoc t
      rw [hdone']
      constructor
      · rw [hlk]
        congr 2
        omega
      · omega
    · exact absurd ht (((S3 t htIL).2 heq).1)
  · intro e he
    rw [insertRec_of_not_mem st.subIndexes txid _ h7txid] at he
    rcases List.mem_append.mp he with hd | hd
    · exact h14 e hd
    · rw [List.mem_singleton.mp hd]
      exact newSubIndex_ge1 st.subIndexes tx h14 hvne
  · intro t htd p hsp
    rw [hdone'] at htd
    rcases List.mem_append.mp htd with hd | hd
    · obtain ⟨vp, vt, hvp, hvt, hle⟩ := h15 t hd p hsp
      have hpdone : p ∈ keysRec st.subIndexes :=
        remainingCount_zero_pred m (keysRec st.subIndexes) t p (h12 t hd) hsp
      have hpne : p ≠ txid := fun h => h7txid (h ▸ hpdone)
      have htne : t ≠ txid := fun h => h7txid (h ▸ hd)
      exact ⟨vp, vt,
        by rw [lookupRec_insertRec_ne st.subIndexes txid p _ hpne]; exact hvp,
        by rw [lookupRec_insertRec_ne st.subIndexes txid t _ htne]; exact hvt, hle⟩
    · rw [List.mem_singleton.mp hd] at hsp ⊢
      have hpdone : p ∈ keysRec st.subIndexes :=
        remainingCount_zero_pred m (keysRec st.subIndexes) txid p (h11 txid hqmem) hsp
      obtain ⟨vp, hvp⟩ := lookup_some_of_mem_keys hpdone
      have hvp1 : (1 : WithBot Int) ≤ vp :=
        h14 (p, vp) (mem_of_lookupRec_eq_some st.subIndexes p vp hvp)
      have hpne : p ≠ txid := fun h => h7txid (h ▸ hpdone)
      have hvin := spendsInto_vin m p txid tx htx hsp
      exact ⟨vp, newSubIndex st.subIndexes tx,
        by rw [lookupRec_insertRec_ne st.subIndexes txid p _ hpne]; exact hvp,
        lookupRec_insertRec_self st.subIndexes txid _,
        newSubIndex_ge_pred st.subIndexes tx p vp hvp hvp1 hvin⟩

theorem siLoop_inv (m : TxMap) (hcons : ConsistentOutspends m)
    (hvins : ∀ e ∈ m, e.2.data.vin ≠ []) (fuel : Nat) (st : SIState)
    (hinv : SIInv m st) (hfuel : siMeasure st ≤ fuel) :
    ∃ st' : SIState, st'.workQueue = [] ∧ SIInv m st' ∧
      siLoop m fuel st = some st'.subIndexes := by
  induction fuel generalizing st with
  | zero =>
    have hqe : st.workQueue = [] := by
      unfold siMeasure at hfuel
      cases hq : st.workQueue with
      | nil => rfl
      | cons t r => rw [hq] at hfuel; simp at hfuel
    refine ⟨st, hqe, hinv, ?_⟩
    unfold siLoop
    rw [hqe]
  | succ n ih =>
    cases hqe : st.workQueue with
    | nil =>
      refine ⟨st, hqe, hinv, ?_⟩
      unfold siLoop
      rw [hqe]
    | cons txid rest =>
      have hqmem : txid ∈ st.workQueue := by
        rw [hqe]; exact List.mem_cons_self txid rest
      have hinv' := hinv
      unfold SIInv at hinv'
      have htm : txid ∈ keysRec m := hinv'.2.2.2.1 txid hqmem
      have hsome : (lookupRec m txid).isSome := (lookupRec_isSome_iff m txid).mpr htm
      cases hl : lookupRec m txid with
      | none => rw [hl] at hsome; simp at hsome
      | some tx =>
        have hstep := SIInv_step m st txid rest tx hcons hqe hl hvins hinv
        have hms : siMeasure ⟨insertRec st.subIndexes txid (newSubIndex st.subIndexes tx),
            (tx.outspends.foldl (applyOutspend m) (rest, st.inputsLeft)).1,
            (tx.outspends.foldl (applyOutspend m) (rest, st.inputsLeft)).2⟩ ≤ n := by
          have hm := foldl_applyOutspend_measure m tx.outspends (rest, st.inputsLeft)
          unfold siMeasure at hfuel ⊢
          rw [hqe] at hfuel
          simp only [List.length_cons] at hfuel
          simp only at hm ⊢
          omega
        obtain ⟨st', hq', hinv2, hrun⟩ := ih _ hstep hms
        refine ⟨st', hq', hinv2, ?_⟩
        unfold siLoop
        rw [hqe]
        simp only
        rw [hl]
        simp only
        exact hrun

theorem pairwise_first (l : List String) (Rel : String → String → Prop)
    (P : String → Prop) (x : String)
    (hpw : l.Pairwise Rel) (hx : x ∈ l) (hPx : P x) :
    ∃ y ∈ l, P y ∧ ∀ z ∈ l, P z → z = y ∨ Rel y z := by
  induction l with
  | nil => cases hx
  | cons a l' ih =>
    by_cases hPa : P a
    · refine ⟨a, List.mem_cons_self a l', hPa, ?_⟩
      intro z hz hPz
      rcases List.mem_cons.mp hz with h | h
      · exact Or.inl h
      · exact Or.inr ((List.pairwise_cons.mp hpw).1 z h)
    · have hx' : x ∈ l' := by
        rcases List.mem_cons.mp hx with h | h
        · rw [h] at hPx; exact absurd hPx hPa
        · exact h
      obtain ⟨y, hy, hPy, hmin⟩ := ih (List.pairwise_cons.mp hpw).2 hx'
      refine ⟨y, List.mem_cons_of_mem a hy, hPy, ?_⟩
      intro z hz hPz
      rcases List.mem_cons.mp hz with h | h
      · rw [h] at hPz; exact absurd hPz hPa
      · exact hmin z h hPz

theorem SIInv_final_complete (m : TxMap) (st : SIState)
    (hacy : AcyclicSpend m) (hq : st.workQueue = []) (hinv : SIInv m st) :
    ∀ t ∈ keysRec m, t ∈ keysRec st.subIndexes := by
  unfold SIInv at hinv
  obtain ⟨h1, h2, h3, h4, h5, h6, h7, h8, h9, h10, h11, h12, h13, h14, h15⟩ := hinv
  obtain ⟨hirr, l, hperm, hpw⟩ := hacy
  by_contra hcon
  push_neg at hcon
  obtain ⟨t0, ht0m, ht0nd⟩ := hcon
  have hR : ∀ t ∈ keysRec m, t ∉ keysRec st.subIndexes → t ∈ keysRec st.inputsLeft := by
    intro t htm htnd
    rcases h10 t htm with h | h | h
    · exact absurd h htnd
    · rw [hq] at h; cases h
    · exact h
  have hpred : ∀ t ∈ keysRec st.inputsLeft,
      ∃ p ∈ keysRec st.inputsLeft, spendsInto m p t = true := by
    intro t ht
    obtain ⟨p, hsp, hpnd⟩ := remainingCount_pos_pred m _ t (h13 t ht).2
    have hpm : p ∈ keysRec m := by
      unfold spendsInto at hsp
      cases hlt : lookupRec m t with
      | none => rw [hlt] at hsp; cases hsp
      | some tx =>
        rw [hlt] at hsp
        simp only [Bool.and_eq_true] at hsp
        exact (lookupRec_isSome_iff m p).mp hsp.1
    refine ⟨p, hR p hpm ?_, hsp⟩
    intro hpdone
    have := remainingCount_zero_pred m (keysRec st.subIndexes) p
    exact hpnd hpdone
  have ht0l : t0 ∈ l := hperm.mem_iff.mpr ht0m
  obtain ⟨y, hyl, hyP, hymin⟩ := pairwise_first l (fun a b => spendsInto m b a = false)
    (fun s => s ∈ keysRec st.inputsLeft) t0 hpw ht0l (hR t0 ht0m ht0nd)
  obtain ⟨p, hpR, hspy⟩ := hpred y hyP
  have hpm : p ∈ keysRec m := h6 p hpR
  have hpl : p ∈ l := hperm.mem_iff.mpr hpm
  rcases hymin p hpl hpR with he | hrel
  · rw [he, hirr y (h6 y hyP)] at hspy
    simp at hspy
  · rw [hrel] at hspy
    simp at hspy

theorem computeSubIndexes_spec (m : TxMap) (hnd : (keysRec m).Nodup)
    (hcons : ConsistentOutspends m) (hvins : ∀ e ∈ m, e.2.data.vin ≠ [])
    (hacy : AcyclicSpend m) :
    ∃ subs, computeSubIndexes m = some subs ∧
      (∀ t ∈ keysRec m, ∃ v, lookupRec subs t = some v ∧ (1 : WithBot Int) ≤ v) ∧
      (∀ p t, t ∈ keysRec m → spendsInto m p t = true →
        ∃ vp vt, lookupRec subs p = some vp ∧ lookupRec subs t = some vt ∧
          vp + 1 ≤ vt) := by
  obtain ⟨st', hq', hinv', hrun⟩ := siLoop_inv m hcons hvins
    (siMeasure (initSI m)) (initSI m) (SIInv_init m hnd) (le_refl _)
  have hcomplete := SIInv_final_complete m st' hacy hq' hinv'
  have hinv2 := hinv'
  unfold SIInv at hinv2
  obtain ⟨_, _, _, _, _, _, _, _, _, _, _, _, _, h14, h15⟩ := hinv2
  refine ⟨st'.subIndexes, ?_, ?_, ?_⟩
  · unfold computeSubIndexes
    exact hrun
  · intro t htm
    obtain ⟨v, hv⟩ := lookup_some_of_mem_keys (hcomplete t htm)
    exact ⟨v, hv, h14 (t, v) (mem_of_lookupRec_eq_some st'.subIndexes t v hv)⟩
  · intro p t htm hsp
    exact h15 t (hcomplete t htm) p hsp

theorem txSortLe_iff (m : TxMap) (subs : List (String × WithBot Int)) (a b : String) :
    txSortLe m subs a b = true ↔
      heightKey m a < heightKey m b ∨
      (heightKey m a = heightKey m b ∧
        (lookupRec subs a).getD 0 < (lookupRec subs b).getD 0) ∨
      (heightKey m a = heightKey m b ∧
        (lookupRec subs a).getD 0 = (lookupRec subs b).getD 0 ∧
        a.data ≤ b.data) := by
  simp only [txSortLe]
  by_cases hh : heightKey m a = heightKey m b
  · rw [if_neg (not_not.mpr hh)]
    by_cases hv : (lookupRec subs a).getD 0 = (lookupRec subs b).getD 0
    · rw [if_neg (not_not.mpr hv)]
      simp [hh, hv, strLtB, not_lt]
    · rw [if_pos hv]
      simp [hh, hv]
  · rw [if_pos hh]
    simp [hh]

theorem txSortLe_total (m : TxMap) (subs : List (String × WithBot Int)) (a b : String) :
    txSortLe m subs a b = true ∨ txSortLe m subs b a = true := by
  rw [txSortLe_iff, txSortLe_iff]
  rcases lt_trichotomy (heightKey m a) (heightKey m b) with h | h | h
  · exact Or.inl (Or.inl h)
  · rcases lt_trichotomy ((lookupRec subs a).getD 0) ((lookupRec subs b).getD 0)
      with hv | hv | hv
    · exact Or.inl (Or.inr (Or.inl ⟨h, hv⟩))
    · rcases le_total a.data b.data with hd | hd
      · exact Or.inl (Or.inr (Or.inr ⟨h, hv, hd⟩))
      · exact Or.inr (Or.inr (Or.inr ⟨h.symm, hv.symm, hd⟩))
    · exact Or.inr (Or.inr (Or.inl ⟨h.symm, hv⟩))
  · exact Or.inr (Or.inl h)

theorem txSortLe_trans (m : TxMap) (subs : List (String × WithBot Int)) (a b c : String)
    (hab : txSortLe m subs a b = true) (hbc : txSortLe m subs b c = true) :
    txSortLe m subs a c = true := by
  rw [txSortLe_iff] at hab hbc ⊢
  rcases hab with h1 | ⟨h1, h2⟩ | ⟨h1, h2, h3⟩
  · rcases hbc with g1 | ⟨g1, g2⟩ | ⟨g1, g2, g3⟩
    · exact Or.inl (lt_trans h1 g1)
    · exact Or.inl (lt_of_lt_of_eq h1 g1)
    · exact Or.inl (lt_of_lt_of_eq h1 g1)
  · rcases hbc with g1 | ⟨g1, g2⟩ | ⟨g1, g2, g3⟩
    · exact Or.inl (lt_of_eq_of_lt h1 g1)
    · exact Or.inr (Or.inl ⟨h1.trans g1, lt_trans h2 g2⟩)
    · exact Or.inr (Or.inl ⟨h1.trans g1, lt_of_lt_of_eq h2 g2⟩)
  · rcases hbc with g1 | ⟨g1, g2⟩ | ⟨g1, g2, g3⟩
    · exact Or.inl (lt_of_eq_of_lt h1 g1)
    · exact Or.inr (Or.inl ⟨h1.trans g1, lt_of_eq_of_lt h2 g2⟩)
    · exact Or.inr (Or.inr ⟨h1.trans g1, h2.trans g2, le_trans h3 g3⟩)

theorem withbot_lt_add_one (v : WithBot Int) (hv : (1 : WithBot Int) ≤ v) :
    v < v + 1 := by
  cases v with
  | bot => exact absurd hv (by decide)
  | coe n =>
    have : ((n : WithBot Int) + 1) = ((n + 1 : Int) : WithBot Int) := by
      push_cast
      rfl
    rw [this]
    exact_mod_cast lt_add_one n

theorem sortTxids_lt_of (m : TxMap) (subs : List (String × WithBot Int))
    (hsubs : computeSubIndexes m = some subs)
    (A B : String) (hA : A ∈ keysRec m) (hB : B ∈ keysRec m)
    (hBA : ¬ txSortLe m subs B A = true) :
    (sortTxids m).indexOf A < (sortTxids m).indexOf B := by
  have hne : A ≠ B := by
    intro he
    rcases txSortLe_total m subs B A with h | h
    · exact hBA h
    · rw [he] at hBA h
      exact hBA h
  have hL : sortTxids m
      = (m.map Prod.fst).insertionSort (fun a b => txSortLe m subs a b = true) := by
    unfold sortTxids
    rw [hsubs]
    rfl
  haveI hto : IsTotal String (fun a b => txSortLe m subs a b = true) :=
    ⟨txSortLe_total m subs⟩
  haveI htr : IsTrans String (fun a b => txSortLe m subs a b = true) :=
    ⟨txSortLe_trans m subs⟩
  have hsorted : List.Sorted (fun a b => txSortLe m subs a b = true) (sortTxids m) := by
    rw [hL]
    exact List.sorted_insertionSort (fun a b => txSortLe m subs a b = true)
      (m.map Prod.fst)
  have hperm : (sortTxids m).Perm (m.map Prod.fst) := by
    rw [hL]
    exact List.perm_insertionSort (fun a b => txSortLe m subs a b = true)
      (m.map Prod.fst)
  have hAL : A ∈ sortTxids m := hperm.mem_iff.mpr hA
  have hBL : B ∈ sortTxids m := hperm.mem_iff.mpr hB
  have hiA : (sortTxids m).indexOf A < (sortTxids m).length :=
    List.indexOf_lt_length.mpr hAL
  have hiB : (sortTxids m).indexOf B < (sortTxids m).length :=
    List.indexOf_lt_length.mpr hBL
  have hineq : (sortTxids m).indexOf A ≠ (sortTxids m).indexOf B := by
    intro he
    exact hne ((List.indexOf_inj hAL hBL).mp he)
  have hnotlt : ¬ (sortTxids m).indexOf B < (sortTxids m).indexOf A := by
    intro hlt
    apply hBA
    have hrel := List.Sorted.rel_get_of_lt hsorted
      (a := ⟨(sortTxids m).indexOf B, hiB⟩) (b := ⟨(sortTxids m).indexOf A, hiA⟩)
      (Fin.mk_lt_mk.mpr hlt)
    have h1 : (sortTxids m).get ⟨(sortTxids m).indexOf B, hiB⟩ = B := by
      rw [List.get_eq_getElem]
      exact List.getElem_indexOf hiB
    have h2 : (sortTxids m).get ⟨(sortTxids m).indexOf A, hiA⟩ = A := by
      rw [List.get_eq_getElem]
      exact List.getElem_indexOf hiA
    rw [h1, h2] at hrel
    exact hrel
  omega

theorem spendsInto_of_vinRef (m : TxMap) (a b : String) (ha : a ∈ keysRec m)
    (hpos : 0 < vinRefCount m b a) : spendsInto m a b = true := by
  unfold vinRefCount at hpos
  cases hlb : lookupRec m b with
  | none => rw [hlb] at hpos; simp at hpos
  | some tx =>
    rw [hlb] at hpos
    simp only at hpos
    have hne := List.length_pos.mp hpos
    obtain ⟨v, hv⟩ := List.exists_mem_of_ne_nil _ hne
    have hvf := List.mem_filter.mp hv
    exact spendsInto_of_vin m a b tx hlb ((lookupRec_isSome_iff m a).mpr ha)
      ⟨v, hvf.1, by simpa using hvf.2⟩

/-- Claim C3 (amended): with the additional hypothesis that every transaction
in the set has at least one input — true of every real Bitcoin transaction,
coinbase transactions included — the ordering claim holds: on a duplicate-free
node set whose outspend records are consistent with its input references and
whose in-set spend relation is acyclic, if `A` and `B` share a confirmation
height and an output of `A` is spent by `B`, then `A` precedes `B` in
`sortTxids`. -/
theorem c3_order_amended (m : TxMap) (A B : String)
    (hnd : (keysRec m).Nodup)
    (hvins : ∀ e ∈ m, e.2.data.vin ≠ [])
    (hcons : ConsistentOutspends m)
    (hacy : AcyclicSpend m)
    (hA : A ∈ keysRec m) (hB : B ∈ keysRec m)
    (hh : heightKey m A = heightKey m B)
    (hsp : 0 < outspendCount m A B) :
    (sortTxids m).indexOf A < (sortTxids m).indexOf B := by
  have hvinref : 0 < vinRefCount m B A := by
    rw [← hcons A hA B hB]
    exact hsp
  have hspAB : spendsInto m A B = true := spendsInto_of_vinRef m A B hA hvinref
  obtain ⟨subs, hsubs, hvals, horder⟩ := computeSubIndexes_spec m hnd hcons hvins hacy
  obtain ⟨vA, vB, hvA, hvB, hle⟩ := horder A B hB hspAB
  have hgeA : (1 : WithBot Int) ≤ vA := by
    obtain ⟨v, hv, hge⟩ := hvals A hA
    rw [hvA] at hv
    injection hv with hv
    rw [hv]
    exact hge
  have hltAB : vA < vB := lt_of_lt_of_le (withbot_lt_add_one vA hgeA) hle
  apply sortTxids_lt_of m subs hsubs A B hA hB
  rw [txSortLe_iff]
  push_neg
  refine ⟨?_, ?_, ?_⟩
  · exact le_of_eq hh
  · intro _
    rw [hvA, hvB]
    simp only [Option.getD_some]
    exact le_of_lt hltAB
  · intro _ hveq
    exfalso
    rw [hvA, hvB] at hveq
    simp only [Option.getD_some] at hveq
    exact (ne_of_lt hltAB) hveq.symm

/-- Claim C3 witness: the two-node set `exMapOK` (funding transaction `aa`
spent by `bb`, both at height 100, every input list non-empty) satisfies all
hypotheses of the amended ordering theorem, and `aa` indeed precedes `bb`. -/
theorem c3_order_witness :
    ((keysRec exMapOK).Nodup ∧
     (∀ e ∈ exMapOK, e.2.data.vin ≠ []) ∧
     ConsistentOutspends exMapOK ∧
     AcyclicSpend exMapOK ∧
     heightKey exMapOK "aa" = heightKey exMapOK "bb" ∧
     0 < outspendCount exMapOK "aa" "bb") ∧
    (sortTxids exMapOK).indexOf "aa" < (sortTxids exMapOK).indexOf "bb" := by
  constructor
  · unfold ConsistentOutspends AcyclicSpend
    exact ⟨by decide, by decide, by decide,
      ⟨by decide, ["aa", "bb"], by decide, by decide⟩, by decide, by decide⟩
  · exact c3_order_amended exMapOK "aa" "bb" (by decide) (by decide)
      (by unfold ConsistentOutspends; decide)
      (by unfold AcyclicSpend
          exact ⟨by decide, ["aa", "bb"], by decide, by decide⟩)
      (by decide) (by decide) (by decide) (by decide)
